import Mathlib

/-!
Verification of the chess_app repository's annotation-overlay and premove
subsystems: a shallow embedding in Lean 4 of the Mobility (premove) Engine
(src/public/js/premove.js, src/public/js/util.js), the Geometry Engine and
Hashing Reconciler (src/unnamed/part_001, the compiled svg.js), together
with theorems settling the frozen specification claims.

Conventions: JS numbers used as board coordinates are embedded as Int
(all call sites are integral); pixel bounds as Nat; real-valued geometry
(angles, trigonometry) as Real; fallible JS lookups as Option; JS Map as
an association list; JS Set as a duplicate-free List built by a
membership-checked insert.  Mutation-free JS functions become plain Lean
functions; the two stateful operations (renderSvg's prevSvgHash sentinel
and the DOM reconciliation) are embedded as explicit state passing, with
the reconciler instrumented to return the number of appendChild and
removeChild calls it performs.
-/

namespace CG

/-! ## Colors, roles, pieces (types.js interface) -/

inductive Color where
  | white
  | black
deriving DecidableEq, Repr

/-- Modelled from the spec: the closed role enumeration
{pawn, knight, bishop, rook, queen, king} of section 9 (types.js is not
part of the provided sources). -/
inductive Role where
  | pawn
  | knight
  | bishop
  | rook
  | queen
  | king
deriving DecidableEq, Repr

structure Piece where
  role : Role
  color : Color
deriving DecidableEq, Repr

/-- Modelled from the spec: the file letters a..h of types.js
(spec section 8: "file=a..h"). -/
def files : List String := ["a", "b", "c", "d", "e", "f", "g", "h"]

/-- Modelled from the spec: the rank digits 1..8 of types.js
(spec section 8: "rank=1..8"). -/
def ranks : List String := ["1", "2", "3", "4", "5", "6", "7", "8"]

/-! ## util.js -/

/-- util.js: allKeys = files.flatMap(f => ranks.map(r => f + r)). -/
def allKeys : List String := files.flatMap (fun f => ranks.map (fun r => f ++ r))

/-- util.js: pos2key — valid-range guard, then allKeys[8*x + y]
(undefined outside the board, embedded as none). -/
def pos2key (pos : Int × Int) : Option String :=
  if 0 ≤ pos.1 ∧ pos.1 ≤ 7 ∧ 0 ≤ pos.2 ∧ pos.2 ≤ 7 then
    allKeys[(8 * pos.1 + pos.2).toNat]?
  else
    none

/-- util.js: key2pos — char codes of the first two characters minus 97/49.
JS charCodeAt out of range gives NaN; the default character is immaterial
because every use is either on a two-character key or flows into the
range-checked pos2key. -/
def key2pos (k : String) : Int × Int :=
  (((k.data.getD 0 'A').toNat : Int) - 97, ((k.data.getD 1 'A').toNat : Int) - 49)

structure PosAndKey where
  key : String
  pos : Int × Int
deriving DecidableEq, Repr

/-- util.js: allPosAndKey = allKeys.map((key, i) => ({key, pos: allPos[i]}))
with allPos = allKeys.map(key2pos). -/
def allPosAndKey : List PosAndKey := allKeys.map (fun key => ⟨key, key2pos key⟩)

/-- util.js: opposite. -/
def opposite : Color → Color
  | Color.white => Color.black
  | Color.black => Color.white

/-- util.js: diff = (a, b) => Math.abs(a - b). -/
def diff (a b : Int) : Int := ((a - b).natAbs : Int)

/-- util.js: knightDir. -/
def knightDir (x1 y1 x2 y2 : Int) : Bool := diff x1 x2 * diff y1 y2 = 2

/-- util.js: rookDir — exactly one of the coordinates is unchanged. -/
def rookDir (x1 y1 x2 y2 : Int) : Bool := (decide (x1 = x2)) != (decide (y1 = y2))

/-- util.js: bishopDir. -/
def bishopDir (x1 y1 x2 y2 : Int) : Bool := diff x1 x2 = diff y1 y2 ∧ x1 ≠ x2

/-- util.js: queenDir. -/
def queenDir (x1 y1 x2 y2 : Int) : Bool := rookDir x1 y1 x2 y2 || bishopDir x1 y1 x2 y2

/-- util.js: kingDirNonCastling. -/
def kingDirNonCastling (x1 y1 x2 y2 : Int) : Bool := max (diff x1 x2) (diff y1 y2) = 1

/-- util.js: pawnDirCapture. -/
def pawnDirCapture (x1 y1 x2 y2 : Int) (isDirectionUp : Bool) : Bool :=
  diff x1 x2 = 1 ∧ y2 = y1 + (if isDirectionUp then 1 else -1)

/-- util.js: pawnDirAdvance — straight advance one step, or two steps from
the first two ranks (the source comment says: for horde). -/
def pawnDirAdvance (x1 y1 x2 y2 : Int) (isDirectionUp : Bool) : Bool :=
  let step : Int := if isDirectionUp then 1 else -1
  x1 = x2 ∧
    (y2 = y1 + step ∨
      (y2 = y1 + 2 * step ∧ (if isDirectionUp then y1 ≤ 1 else y1 ≥ 6)))

/-- The while-loop body of util.js squaresBetween, with explicit fuel.
The JS loop runs max(|dx|, |dy|) - 1 pushes followed by a final
termination test, so the fuel supplied below always suffices. -/
def squaresBetweenWalk (x2 y2 stepX stepY : Int) : Int → Int → Nat → List (Int × Int)
  | _, _, 0 => []
  | x, y, fuel + 1 =>
    if x ≠ x2 ∨ y ≠ y2 then
      (x, y) :: squaresBetweenWalk x2 y2 stepX stepY (x + stepX) (y + stepY) fuel
    else
      []

/-- util.js: squaresBetween — straight/diagonal interior squares, mapped
through pos2key and filtered of undefined entries. -/
def squaresBetween (x1 y1 x2 y2 : Int) : List String :=
  let dx := x2 - x1
  let dy := y2 - y1
  if dx ≠ 0 ∧ dy ≠ 0 ∧ dx.natAbs ≠ dy.natAbs then []
  else
    let stepX := Int.sign dx
    let stepY := Int.sign dy
    let squares := squaresBetweenWalk x2 y2 stepX stepY (x1 + stepX) (y1 + stepY)
      (max dx.natAbs dy.natAbs)
    (squares.map pos2key).filterMap id

/-- util.js: adjacentSquares — horizontal neighbours of a square, mapped
through pos2key and filtered of undefined entries. -/
def adjacentSquares (square : String) : List String :=
  let pos := key2pos square
  let candidates :=
    (if pos.1 > 0 then [(pos.1 - 1, pos.2)] else []) ++
      (if pos.1 < 7 then [(pos.1 + 1, pos.2)] else [])
  (candidates.map pos2key).filterMap id

/-! ## premove.js -/

/-- The MobilityContext snapshot premove.js hands to each per-role
predicate (spec section 3). -/
structure MobilityCtx where
  orig : PosAndKey
  dest : PosAndKey
  role : Role
  allPieces : List (String × Piece)
  friendlies : List (String × Piece)
  enemies : List (String × Piece)
  color : Color
  rookFilesFriendlies : List Int
  lastMove : Option (List String)

/-- premove.js: the pawn predicate. -/
def pawn (ctx : MobilityCtx) : Bool :=
  diff ctx.orig.pos.1 ctx.dest.pos.1 ≤ 1 &&
    (if diff ctx.orig.pos.1 ctx.dest.pos.1 = 1 then
      decide (ctx.dest.pos.2 = ctx.orig.pos.2 + (if ctx.color = Color.white then 1 else -1))
    else
      pawnDirAdvance ctx.orig.pos.1 ctx.orig.pos.2 ctx.dest.pos.1 ctx.dest.pos.2
        (ctx.color = Color.white))

/-- premove.js: the knight predicate. -/
def knight (ctx : MobilityCtx) : Bool :=
  knightDir ctx.orig.pos.1 ctx.orig.pos.2 ctx.dest.pos.1 ctx.dest.pos.2

/-- premove.js: the bishop predicate. -/
def bishop (ctx : MobilityCtx) : Bool :=
  bishopDir ctx.orig.pos.1 ctx.orig.pos.2 ctx.dest.pos.1 ctx.dest.pos.2

/-- premove.js: the rook predicate. -/
def rook (ctx : MobilityCtx) : Bool :=
  rookDir ctx.orig.pos.1 ctx.orig.pos.2 ctx.dest.pos.1 ctx.dest.pos.2

/-- premove.js: the queen predicate. -/
def queen (ctx : MobilityCtx) : Bool := bishop ctx || rook ctx

/-- premove.js: the king predicate — one-step moves, plus the simplified
castling allowance on the home rank: either the classic e-file king
jumping two squares toward a recorded rook file, or any home-rank square
whose file carries a recorded friendly rook. -/
def king (ctx : MobilityCtx) : Bool :=
  kingDirNonCastling ctx.orig.pos.1 ctx.orig.pos.2 ctx.dest.pos.1 ctx.dest.pos.2 ||
    (decide (ctx.orig.pos.2 = ctx.dest.pos.2) &&
      decide (ctx.orig.pos.2 = (if ctx.color = Color.white then 0 else 7)) &&
      ((decide (ctx.orig.pos.1 = 4) &&
          ((decide (ctx.dest.pos.1 = 2) && ctx.rookFilesFriendlies.contains 0) ||
            (decide (ctx.dest.pos.1 = 6) && ctx.rookFilesFriendlies.contains 7))) ||
        ctx.rookFilesFriendlies.contains ctx.dest.pos.1))

/-- premove.js: mobilityByRole — the fixed role-to-predicate table. -/
def mobilityByRole : Role → MobilityCtx → Bool
  | Role.pawn => pawn
  | Role.knight => knight
  | Role.bishop => bishop
  | Role.rook => rook
  | Role.queen => queen
  | Role.king => king

structure Premovable where
  additionalPremoveRequirements : MobilityCtx → Bool

/-- The slice of chessground state premove.js reads: the piece map (a JS
Map embedded as an association list with unique keys), the side to move,
the host-supplied extra premove predicate and the last move. -/
structure PState where
  pieces : List (String × Piece)
  turnColor : Color
  premovable : Premovable
  lastMove : Option (List String)

/-- premove.js: premove(state, key).  Pure: the state is read, never
written, so the embedding returns only the destination list. -/
def premove (state : PState) (key : String) : List String :=
  match state.pieces.lookup key with
  | none => []
  | some piece =>
    if piece.color = state.turnColor then []
    else
      let color := piece.color
      let friendlies := state.pieces.filter (fun kp => kp.2.color = color)
      let enemies := state.pieces.filter (fun kp => kp.2.color = opposite color)
      let orig : PosAndKey := ⟨key, key2pos key⟩
      let rookFilesFriendlies :=
        (state.pieces.filter (fun kp =>
          kp.1.data.getD 1 'A' = (if color = Color.white then '1' else '8') ∧
            kp.2.color = color ∧ kp.2.role = Role.rook)).map
          (fun kp => (key2pos kp.1).1)
      let mkCtx : PosAndKey → MobilityCtx := fun dest =>
        { orig := orig
          dest := dest
          role := piece.role
          allPieces := state.pieces
          friendlies := friendlies
          enemies := enemies
          color := color
          rookFilesFriendlies := rookFilesFriendlies
          lastMove := state.lastMove }
      let mobility : MobilityCtx → Bool := fun ctx =>
        mobilityByRole piece.role ctx && state.premovable.additionalPremoveRequirements ctx
      (allPosAndKey.filter (fun dest => mobility (mkCtx dest))).map (fun pk => pk.key)

/-! ## Shape model (svg.d.ts / draw.d.ts interfaces) -/

structure Bounds where
  width : Nat
  height : Nat
deriving DecidableEq, Repr

inductive CenterAnchor where
  | orig
  | dest
  | label
deriving DecidableEq, Repr

structure CustomSvg where
  html : String
  center : Option CenterAnchor
deriving DecidableEq, Repr

structure ShapeLabel where
  text : String
  fill : Option String
deriving DecidableEq, Repr

structure Modifiers where
  lineWidth : Option Nat
  hilite : Option String
deriving DecidableEq, Repr

structure ShapePiece where
  role : Role
  color : Color
  scale : Option Nat
deriving DecidableEq, Repr

/-- draw.d.ts DrawShape.  The optional below flag is embedded as Bool since
every read site coerces it with double negation. -/
structure DrawShape where
  orig : String
  dest : Option String
  brush : Option String
  modifiers : Option Modifiers
  piece : Option ShapePiece
  customSvg : Option CustomSvg
  label : Option ShapeLabel
  below : Bool
deriving DecidableEq, Repr

/-- draw.d.ts DrawCurrent (the fields svg.js reads). -/
structure DrawCurrent where
  orig : String
  dest : Option String
  mouseSq : Option String
  brush : String
deriving DecidableEq, Repr

/-- svg.js uses the in-progress DrawCurrent structurally as a DrawShape;
its absent optional fields read as undefined. -/
def DrawCurrent.toShape (c : DrawCurrent) : DrawShape :=
  { orig := c.orig
    dest := c.dest
    brush := some c.brush
    modifiers := none
    piece := none
    customSvg := none
    label := none
    below := false }

/-- svg.d.ts DrawBrush. -/
structure Brush where
  key : String
  color : String
  opacity : ℚ
  lineWidth : Nat
deriving DecidableEq, Repr

/-- Modelled from the spec: draw.js sameEndpoints (implementation not under
src/, only its declaration) — the in-progress shape "duplicates a persisted
shape's endpoints" (spec section 4.1). -/
def sameEndpoints (s1 s2 : DrawShape) : Bool :=
  s1.orig = s2.orig ∧ s1.dest = s2.dest

/-- Modelled from the spec: draw.js sameColor (implementation not under
src/, only its declaration) — same brush (spec section 4.1: "endpoints/brush"). -/
def sameColor (s1 s2 : DrawShape) : Bool :=
  s1.brush = s2.brush

/-! ## svg.js: geometry helpers -/

/-- svg.js: mod = (n, m) => ((n % m) + m) % m, with the truncating JS
percent operator embedded as Int.tmod. -/
def jsMod (n m : Int) : Int := (n.tmod m + m).tmod m

/-- svg.js: rotateAngleSlot. -/
def rotateAngleSlot (slot steps : Int) : Int := jsMod (slot + steps) 16

/-- svg.js: anyTwoCloserThan90Degrees — some recorded slot has another
recorded slot within a circular distance of 3 buckets (offset 0 is not
tested: a single slot is never crowded with itself). -/
def anyTwoCloserThan90Degrees (slots : List Int) : Bool :=
  slots.any (fun slot =>
    [(-3 : Int), -2, -1, 1, 2, 3].any (fun i => slots.contains (rotateAngleSlot slot i)))

/-- svg.js: isShort — a destination is drawn shortened when it is recorded
in the dests index and its slot set is crowded. -/
def isShort (dest : Option String) (dests : List (String × List Int)) : Bool :=
  match dest with
  | none => false
  | some d =>
    match dests.lookup d with
    | none => false
    | some slots => anyTwoCloserThan90Degrees slots

/-- svg.js: angleCount — the size of the slot set recorded for a
destination (0 when absent).  Slot sets are kept duplicate-free by setAdd,
so length is JS Set size. -/
def angleCount (dest : Option String) (dests : List (String × List Int)) : Nat :=
  match dest with
  | none => 0
  | some d =>
    match dests.lookup d with
    | none => 0
    | some slots => slots.length

/-- JS Set.prototype.add on a duplicate-free list. -/
def setAdd (s : List Int) (x : Int) : List Int :=
  if s.contains x then s else s ++ [x]

/-- JS Map.prototype.set on an association list: overwrite in place when
the key is present, append otherwise. -/
def mapSet {α : Type} (m : List (String × α)) (k : String) (v : α) : List (String × α) :=
  if (m.lookup k).isSome then m.map (fun kv => if kv.1 = k then (k, v) else kv)
  else m ++ [(k, v)]

/-- svg.js: orient. -/
def orient (pos : Int × Int) (color : Color) : Int × Int :=
  if color = Color.white then pos else (7 - pos.1, 7 - pos.2)

/-- JS Math.atan2(y, x), the principal argument in (-pi, pi]. -/
noncomputable def atan2 (y x : ℝ) : ℝ := Complex.arg ⟨x, y⟩

/-- svg.js: moveAngle — approach angle measured from destination back
toward origin, in [0, 2*pi). -/
noncomputable def moveAngle (f t : ℝ × ℝ) : ℝ :=
  atan2 (t.2 - f.2) (t.1 - f.1) + Real.pi

/-- svg.js: angleToSlot = angle => mod(Math.round(angle * 8 / PI), 16).
Mathlib round is floor of x + 1/2, exactly JS Math.round. -/
noncomputable def angleToSlot (angle : ℝ) : Int :=
  jsMod (round (angle * 8 / Real.pi)) 16

/-- svg.js: pos2user — recenter board coordinates to [-3.5, 3.5] and
rescale each axis by the aspect-ratio clamp.  (For degenerate zero bounds
JS yields an Infinity ratio clamped to 1 where Lean division yields 0;
no claim involves zero bounds.) -/
noncomputable def pos2user (pos : Int × Int) (bounds : Bounds) : ℝ × ℝ :=
  let xScale : ℝ := min 1 ((bounds.width : ℝ) / (bounds.height : ℝ))
  let yScale : ℝ := min 1 ((bounds.height : ℝ) / (bounds.width : ℝ))
  (((pos.1 : ℝ) - 3.5) * xScale, (3.5 - (pos.2 : ℝ)) * yScale)

/-- The slot-set accumulation renderSvg performs for a family of arrows
into one destination: each approach angle is discretized and added to the
JS Set of recorded slots. -/
noncomputable def slotsOfAngles (angles : List ℝ) : List Int :=
  angles.foldl (fun acc a => setAdd acc (angleToSlot a)) []

/-! ## svg.js: brushes, margins, hashes -/

/-- svg.js: makeCustomBrush — identity without modifiers, otherwise a
derived brush whose key is the base key concatenated with the (truthy)
line-width override.  (JS Math.round on the numeric fields is the
identity here since opacity rounding is kept in tenths and line widths
are integral.) -/
def makeCustomBrush (base : Brush) (modifiers : Option Modifiers) : Brush :=
  match modifiers with
  | none => base
  | some m =>
    { color := base.color
      opacity := ((round (base.opacity * 10) : ℤ) : ℚ) / 10
      lineWidth :=
        match m.lineWidth with
        | some n => if n ≠ 0 then n else base.lineWidth
        | none => base.lineWidth
      key := String.join ([some base.key,
        m.lineWidth.bind (fun n => if n = 0 then none else some (toString n))].filterMap id) }

/-- svg.js: hiliteOf — derived hilite marker key and color; a missing or
empty hilite modifier yields neither.  (Lean String.replace removes every
hash sign where JS replace removes the first; hilite colors carry at most
one.) -/
def hiliteOf (shape : DrawShape) : Option String × Option String :=
  match shape.modifiers.bind (fun m => m.hilite) with
  | none => (none, none)
  | some h => if h = "" then (none, none) else (some ("hilite-" ++ h.replace "#" ""), some h)

/-- svg.js: circleWidth. -/
def circleWidth : List ℚ := [3 / 64, 4 / 64]

/-- svg.js: lineWidth — brush width (default 10), scaled by 0.85 while the
shape is in progress, in 64ths of a board unit. -/
def lineWidth (brush : Brush) (current : Bool) : ℚ :=
  (((if brush.lineWidth = 0 then 10 else brush.lineWidth) : ℚ) * (if current then 85 / 100 else 1)) / 64

/-- svg.js: opacity — pending-erase dims to 0.6, in-progress to 0.9. -/
def opacity (brush : Brush) (current : Bool) (pendingErase : Bool) : ℚ :=
  (if brush.opacity = 0 then 1 else brush.opacity) *
    (if pendingErase then 6 / 10 else if current then 9 / 10 else 1)

/-- svg.js: arrowMargin = shorten => (shorten ? 20 : 10) / 64. -/
def arrowMargin (shorten : Bool) : ℚ := (if shorten then 20 else 10) / 64

/-- svg.js renderArrow, the margin computed by its renderLine closure:
m = arrowMargin(shorten && !current). -/
def renderArrowMargin (shorten current : Bool) : ℚ :=
  arrowMargin (shorten && !current)

/-- svg.js: textHash — rolling base-31 hash with 32-bit unsigned
wraparound ((h << 5) - h + charCode >>> 0), rendered in decimal. -/
def textHash (s : String) : String :=
  toString (s.data.foldl (fun h c => (32 * h - h + c.toNat) % 2 ^ 32) 0)

/-- JS Array.prototype.join(",") on the already-truthiness-filtered
entries. -/
def joinComma : List String → String
  | [] => ""
  | [x] => x
  | x :: y :: xs => x ++ "," ++ joinComma (y :: xs)

/-- JS truthiness of a string entry: the empty string is falsy. -/
def jsStr (s : String) : Option String :=
  if s = "" then none else some s

/-- JS truthiness of a numeric entry: zero is falsy, other numbers
stringify. -/
def jsNum (n : Nat) : Option String :=
  if n = 0 then none else some (toString n)

def roleStr : Role → String
  | Role.pawn => "pawn"
  | Role.knight => "knight"
  | Role.bishop => "bishop"
  | Role.rook => "rook"
  | Role.queen => "queen"
  | Role.king => "king"

def colorStr : Color → String
  | Color.white => "white"
  | Color.black => "black"

/-- svg.js: pieceHash = [color, role, scale].filter(x => x).join(","). -/
def pieceHash (piece : ShapePiece) : String :=
  joinComma ([some (colorStr piece.color), some (roleStr piece.role),
    piece.scale.bind (fun n => jsNum n)].filterMap id)

/-- svg.js: modifiersHash = [lineWidth, hilite].filter(x => x).join(","). -/
def modifiersHash (m : Modifiers) : String :=
  joinComma ([m.lineWidth.bind (fun n => jsNum n), m.hilite.bind jsStr].filterMap id)

/-- The first character of a customSvg anchor, defaulting to "o". -/
def centerChar : Option CenterAnchor → String
  | none => "o"
  | some CenterAnchor.orig => "o"
  | some CenterAnchor.dest => "d"
  | some CenterAnchor.label => "l"

/-- The entry array of svg.js shapeHash before truthiness filtering; none
embeds a falsy JS entry (false, undefined, 0, empty string). -/
def shapeHashEntries (s : DrawShape) (shorten current : Bool) (bounds : Bounds)
    (pendingErase : Bool) (angleCountOfDest : Nat) : List (Option String) :=
  [jsNum bounds.width,
   jsNum bounds.height,
   if current then some "true" else none,
   if pendingErase then some "pendingErase" else none,
   jsNum angleCountOfDest,
   jsStr s.orig,
   s.dest.bind jsStr,
   s.brush.bind jsStr,
   if shorten then some "-" else none,
   (s.piece.map pieceHash).bind jsStr,
   (s.modifiers.map modifiersHash).bind jsStr,
   s.customSvg.map (fun c => "custom-" ++ textHash c.html ++ "," ++ centerChar c.center),
   s.label.map (fun l => "label-" ++ textHash l.text),
   if s.below then some "below" else none]

/-- svg.js: shapeHash — the truthy entries joined with commas. -/
def shapeHash (s : DrawShape) (shorten current : Bool) (bounds : Bounds)
    (pendingErase : Bool) (angleCountOfDest : Nat) : String :=
  joinComma ((shapeHashEntries s shorten current bounds pendingErase angleCountOfDest).filterMap id)

/-! ## svg.js: the hashing reconciler -/

/-- The per-shape record renderSvg builds before reconciling ("Shape" in
the source's internal list). -/
structure ShapeCtx where
  shape : DrawShape
  current : Bool
  pendingErase : Bool
  hash : String
deriving DecidableEq, Repr

/-- One visual primitive produced by the overlay renderer; isCustom routes
it to the custom container. -/
structure Rendered (α : Type) where
  el : α
  isCustom : Bool := false
deriving DecidableEq, Repr

/-- The two-layer visual tree syncShapes reconciles: the g containers of
svg.cg-shapes / cg-custom-svgs and their below-layer counterparts.
Children are kept in document order. -/
structure SyncEls (α : Type) where
  shapesG : List α
  customG : List α
  shapesBelowG : List α
  customBelowG : List α
deriving DecidableEq, Repr

/-- svg.js syncShapes: the hashesInDom map is initialized with every
required hash mapped to false. -/
def buildMarks (thisPlane : List ShapeCtx) : List (String × Bool) :=
  thisPlane.foldl (fun m sc => mapSet m sc.hash false) []

/-- svg.js syncShapes, the walk over one root's children: a node whose
recorded hash is a required key is kept (and the key marked present), any
other node is queued for removal.  Returns the updated marks, the kept
children in order, and the number of removeChild calls. -/
def domWalk {α : Type} (getHash : α → String) :
    List (String × Bool) → List α → List (String × Bool) × List α × Nat
  | m, [] => (m, [], 0)
  | m, el :: rest =>
    if (m.lookup (getHash el)).isSome then
      let r := domWalk getHash (mapSet m (getHash el) true) rest
      (r.1, el :: r.2.1, r.2.2)
    else
      let r := domWalk getHash m rest
      (r.1, r.2.1, r.2.2 + 1)

/-- svg.js syncShapes restricted to one layer: walk both roots sharing one
marks map, then render and append every required shape whose hash was not
found in the DOM.  Returns the new roots, the number of appendChild calls
and the number of removeChild calls. -/
def syncPlane {α : Type} (getHash : α → String) (render : ShapeCtx → List (Rendered α))
    (thisPlane : List ShapeCtx) (shapesG customG : List α) :
    List α × List α × Nat × Nat :=
  let m0 := buildMarks thisPlane
  let w1 := domWalk getHash m0 shapesG
  let w2 := domWalk getHash w1.1 customG
  let marks := w2.1
  let toInsert := thisPlane.filter (fun sc => !((marks.lookup sc.hash).getD false))
  let rendered := toInsert.flatMap render
  ((w1.2.1 ++ ((rendered.filter (fun r => !r.isCustom)).map (fun r => r.el))),
   (w2.2.1 ++ ((rendered.filter (fun r => r.isCustom)).map (fun r => r.el))),
   rendered.length,
   w1.2.2 + w2.2.2)

/-- svg.js: syncShapes — reconcile each layer against its own pair of
containers; work never crosses layers.  Returns the new tree and the
total appendChild / removeChild counts. -/
def syncShapes {α : Type} (getHash : α → String) (shapes : List ShapeCtx)
    (els : SyncEls α) (render : ShapeCtx → List (Rendered α)) :
    SyncEls α × Nat × Nat :=
  let above := syncPlane getHash render (shapes.filter (fun s => !s.shape.below))
    els.shapesG els.customG
  let below := syncPlane getHash render (shapes.filter (fun s => s.shape.below))
    els.shapesBelowG els.customBelowG
  ({ shapesG := above.1
     customG := above.2.1
     shapesBelowG := below.1
     customBelowG := below.2.1 },
   above.2.2.1 + below.2.2.1,
   above.2.2.2 + below.2.2.2)

/-- An arrowhead marker element as built by svg.js renderMarker, keyed for
the append-only defs cache. -/
structure Marker where
  cgKey : String
  color : String
  refX : ℚ
deriving DecidableEq, Repr

/-- svg.js: renderMarker. -/
def renderMarker (brush : Brush) : Marker :=
  { cgKey := brush.key
    color := brush.color
    refX := if brush.key.startsWith "hilite" then 186 / 100 else 205 / 100 }

/-- svg.js syncDefs for one layer: collect the (derived) brushes of the
layer's stroked arrow shapes, then append a marker for every brush key not
already present — append only, never removed.  Returns the new defs
children and the number of appendChild calls. -/
def syncDefsPlane (palette : String → Brush) (thisPlane : List ShapeCtx)
    (defs : List Marker) : List Marker × Nat :=
  let stroked := thisPlane.filter (fun s => s.shape.dest.isSome && s.shape.brush.isSome)
  let brushMap : List (String × Brush) := stroked.foldl (fun m sc =>
    match sc.shape.brush with
    | none => m
    | some b =>
      let brush := makeCustomBrush (palette b) sc.shape.modifiers
      let hl := hiliteOf sc.shape
      let m :=
        match hl.1, hl.2 with
        | some k, some c => mapSet m k { key := k, color := c, opacity := 1, lineWidth := 1 }
        | _, _ => m
      mapSet m brush.key brush) []
  let keysInDom := defs.map (fun mk => mk.cgKey)
  brushMap.foldl (fun acc kv =>
    if keysInDom.contains kv.1 then acc else (acc.1 ++ [renderMarker kv.2], acc.2 + 1))
    (defs, 0)

/-! ## svg.js: the overlay renderer at reconciliation granularity

The reconciler observes of each produced element only its cgHash tag and
which container receives it; the element kinds below additionally record
the claim-relevant numeric outputs (the arrow endpoint margin, the label
font size).  Inner presentation attributes (colors, stroke widths, filter
boxes) affect no claim and are not modelled further. -/

inductive SvgKind where
  | arrowG (margin : ℚ) (hilite : Bool)
  | circleG
  | labelG (fontSize : ℚ) (corner : Bool)
  | customG
deriving DecidableEq, Repr

structure SvgNode where
  cgHash : String
  kind : SvgKind
deriving DecidableEq, Repr

/-- svg.js: renderLabel font size = 0.4 * 0.75 ^ textLength. -/
def labelFontSize (text : String) : ℚ := (4 / 10) * (3 / 4) ^ text.length

/-- svg.js: renderShape — one g per stroked shape (arrow when the user
coordinates differ, circle otherwise), plus a custom-routed label badge
and a custom-routed embedded-markup group, every element tagged with the
shape's hash. -/
noncomputable def renderShape (orientation : Color) (sc : ShapeCtx)
    (_brushes : String → Brush) (dests : List (String × List Int)) (bounds : Bounds) :
    List (Rendered SvgNode) :=
  let f := pos2user (orient (key2pos sc.shape.orig) orientation) bounds
  let t :=
    match sc.shape.dest with
    | some d => pos2user (orient (key2pos d) orientation) bounds
    | none => f
  let brushSvgs : List (Rendered SvgNode) :=
    match sc.shape.brush with
    | none => []
    | some _b =>
      if f.1 ≠ t.1 ∨ f.2 ≠ t.2 then
        [{ el := ⟨sc.hash,
            SvgKind.arrowG (renderArrowMargin (isShort sc.shape.dest dests) sc.current)
              ((hiliteOf sc.shape).1.isSome)⟩ }]
      else
        [{ el := ⟨sc.hash, SvgKind.circleG⟩ }]
  let labelSvgs : List (Rendered SvgNode) :=
    match sc.shape.label with
    | none => []
    | some l =>
      [{ el := ⟨sc.hash, SvgKind.labelG (labelFontSize l.text) sc.shape.brush.isNone⟩
         isCustom := true }]
  let customSvgs : List (Rendered SvgNode) :=
    match sc.shape.customSvg with
    | none => []
    | some _c => [{ el := ⟨sc.hash, SvgKind.customG⟩, isCustom := true }]
  brushSvgs ++ labelSvgs ++ customSvgs

/-! ## svg.js: renderSvg -/

/-- The drawable slice of chessground state renderSvg reads and writes
(draw.d.ts Drawable); the brush palette is total per the DrawBrushes
index signature. -/
structure Drawable where
  shapes : List DrawShape
  autoShapes : List DrawShape
  current : Option DrawCurrent
  brushes : String → Brush
  prevSvgHash : String

/-- The state slice renderSvg consumes: drawable, orientation, and the
board bounds snapshot dom.bounds() returns. -/
structure RState where
  drawable : Drawable
  orientation : Color
  bounds : Bounds

/-- renderSvg's guard: the in-progress shape participates only once it has
a mouse square. -/
def curOf (state : RState) : Option DrawCurrent :=
  state.drawable.current.bind (fun c => if c.mouseSq.isSome then some c else none)

/-- svg.js renderSvg, first loop: the DestinationAngleIndex — for every
shape (persisted, non-piece auto, and the in-progress one) with a
destination, record the discretized approach angle slot under that
destination. -/
noncomputable def destsOf (state : RState) : List (String × List Int) :=
  let d := state.drawable
  let nonPieceAutoShapes := d.autoShapes.filter (fun s => s.piece.isNone)
  let allS := d.shapes ++ nonPieceAutoShapes ++
    (match curOf state with
     | some c => [c.toShape]
     | none => [])
  allS.foldl (fun dests s =>
    match s.dest with
    | none => dests
    | some dst =>
      let sources := (dests.lookup dst).getD []
      let f := pos2user (orient (key2pos s.orig) state.orientation) state.bounds
      let t := pos2user (orient (key2pos dst) state.orientation) state.bounds
      mapSet dests dst (setAdd sources (angleToSlot (moveAngle f t)))) []

/-- svg.js renderSvg, second stage: the hashed shape list — persisted and
non-piece auto shapes (flagging the one pending erase), with the
in-progress shape appended unless it duplicates a persisted shape's
endpoints and brush. -/
noncomputable def computeShapeCtxs (state : RState) : List ShapeCtx :=
  let d := state.drawable
  let dests := destsOf state
  let nonPieceAutoShapes := d.autoShapes.filter (fun s => s.piece.isNone)
  let pendingEraseIdx : Option Nat :=
    match curOf state with
    | some c => d.shapes.findIdx? (fun s => sameEndpoints s c.toShape && sameColor s c.toShape)
    | none => none
  let shapes := (d.shapes ++ nonPieceAutoShapes).enum.map (fun is =>
    let isPendingErase := pendingEraseIdx = some is.1
    ({ shape := is.2
       current := false
       pendingErase := isPendingErase
       hash := shapeHash is.2 (isShort is.2.dest dests) false state.bounds isPendingErase
         (angleCount is.2.dest dests) } : ShapeCtx))
  match curOf state with
  | some c =>
    if pendingEraseIdx = none then
      shapes ++ [{ shape := c.toShape
                   current := true
                   pendingErase := false
                   hash := shapeHash c.toShape (isShort c.dest dests) true state.bounds false
                     (angleCount c.dest dests) }]
    else shapes
  | none => shapes

/-- The visual tree renderSvg owns: the append-only defs of each layer and
the four reconciled containers. -/
structure SvgEls where
  defsAbove : List Marker
  defsBelow : List Marker
  sync : SyncEls SvgNode
deriving Repr

/-- svg.js renderSvg: the session hash — every shape's hash joined with
semicolons. -/
noncomputable def fullHashOf (state : RState) : String :=
  String.intercalate ";" ((computeShapeCtxs state).map (fun sc => sc.hash))

/-- svg.js: renderSvg — concatenate all shape hashes into the session
hash; if unchanged since the previous pass return immediately, otherwise
record it, sync the defs and reconcile the shapes.  Instrumented to
return the new state, the new tree, and the number of appendChild /
removeChild calls performed on it. -/
noncomputable def renderSvg (state : RState) (els : SvgEls) :
    RState × SvgEls × Nat × Nat :=
  if fullHashOf state = state.drawable.prevSvgHash then (state, els, 0, 0)
  else
    let shapes := computeShapeCtxs state
    let state' : RState :=
      { state with drawable := { state.drawable with prevSvgHash := fullHashOf state } }
    let dests := destsOf state
    let defsA := syncDefsPlane state.drawable.brushes
      (shapes.filter (fun s => !s.shape.below)) els.defsAbove
    let defsB := syncDefsPlane state.drawable.brushes
      (shapes.filter (fun s => s.shape.below)) els.defsBelow
    let r := syncShapes SvgNode.cgHash shapes els.sync
      (fun sc => renderShape state.orientation sc state.drawable.brushes dests state.bounds)
    (state',
     { defsAbove := defsA.1, defsBelow := defsB.1, sync := r.1 },
     defsA.2 + defsB.2 + r.2.1,
     r.2.2)

/-! ## Concrete instances used by the claim scenarios -/

/-- The standard starting placement (chessground-setup.js fen
"rnbqkbnr/pppppppp/8/8/8/8/PPPPPPPP/RNBQKBNR"). -/
def startPieces : List (String × Piece) :=
  [("a1", ⟨Role.rook, Color.white⟩), ("b1", ⟨Role.knight, Color.white⟩),
   ("c1", ⟨Role.bishop, Color.white⟩), ("d1", ⟨Role.queen, Color.white⟩),
   ("e1", ⟨Role.king, Color.white⟩), ("f1", ⟨Role.bishop, Color.white⟩),
   ("g1", ⟨Role.knight, Color.white⟩), ("h1", ⟨Role.rook, Color.white⟩),
   ("a2", ⟨Role.pawn, Color.white⟩), ("b2", ⟨Role.pawn, Color.white⟩),
   ("c2", ⟨Role.pawn, Color.white⟩), ("d2", ⟨Role.pawn, Color.white⟩),
   ("e2", ⟨Role.pawn, Color.white⟩), ("f2", ⟨Role.pawn, Color.white⟩),
   ("g2", ⟨Role.pawn, Color.white⟩), ("h2", ⟨Role.pawn, Color.white⟩),
   ("a7", ⟨Role.pawn, Color.black⟩), ("b7", ⟨Role.pawn, Color.black⟩),
   ("c7", ⟨Role.pawn, Color.black⟩), ("d7", ⟨Role.pawn, Color.black⟩),
   ("e7", ⟨Role.pawn, Color.black⟩), ("f7", ⟨Role.pawn, Color.black⟩),
   ("g7", ⟨Role.pawn, Color.black⟩), ("h7", ⟨Role.pawn, Color.black⟩),
   ("a8", ⟨Role.rook, Color.black⟩), ("b8", ⟨Role.knight, Color.black⟩),
   ("c8", ⟨Role.bishop, Color.black⟩), ("d8", ⟨Role.queen, Color.black⟩),
   ("e8", ⟨Role.king, Color.black⟩), ("f8", ⟨Role.bishop, Color.black⟩),
   ("g8", ⟨Role.knight, Color.black⟩), ("h8", ⟨Role.rook, Color.black⟩)]

/-- The starting placement with black to move (so white pieces may
premove) and no host veto: the recorded white rook files are computed
from the map itself as {0, 7}. -/
def startStateBlackToMove : PState :=
  { pieces := startPieces
    turnColor := Color.black
    premovable := ⟨fun _ => true⟩
    lastMove := none }

/-- An empty board with white to move, for the empty-origin scenario. -/
def emptyPState : PState :=
  { pieces := []
    turnColor := Color.white
    premovable := ⟨fun _ => true⟩
    lastMove := none }

/-- A white pawn standing on a1 (rank index 0, board rank 1 — not the
home rank 2) aiming two squares up at a3. -/
def pawnA1A3Ctx : MobilityCtx :=
  { orig := ⟨"a1", (0, 0)⟩
    dest := ⟨"a3", (0, 2)⟩
    role := Role.pawn
    allPieces := []
    friendlies := []
    enemies := []
    color := Color.white
    rookFilesFriendlies := []
    lastMove := none }

/-- A label-only shape carrying the given text. -/
def labelShape (t : String) : DrawShape :=
  { orig := "a1", dest := none, brush := none, modifiers := none, piece := none,
    customSvg := none, label := some ⟨t, none⟩, below := false }

/-- A bare shape with every optional field unset. -/
def plainShape : DrawShape :=
  { orig := "a1", dest := none, brush := none, modifiers := none, piece := none,
    customSvg := none, label := none, below := false }

/-- A shape whose modifiers object is present but has every field unset. -/
def emptyModShape : DrawShape :=
  { orig := "a1", dest := none, brush := none, modifiers := some ⟨none, none⟩,
    piece := none, customSvg := none, label := none, below := false }

/-- Fixed square pixel bounds for the hash scenarios. -/
def cbounds : Bounds := ⟨800, 800⟩

/-! ## Supporting lemmas -/

lemma pos2key_mem_allKeys {p : Int × Int} {k : String} (h : pos2key p = some k) :
    k ∈ allKeys := by
  unfold pos2key at h
  split at h
  · exact List.getElem?_mem h
  · simp at h

lemma mem_filterMap_pos2key {l : List (Int × Int)} {k : String}
    (h : k ∈ (l.map pos2key).filterMap id) : k ∈ allKeys := by
  simp only [List.mem_filterMap, List.mem_map, id] at h
  obtain ⟨o, ⟨p, _, rfl⟩, hp⟩ := h
  exact pos2key_mem_allKeys hp

/-! ## Claim C1 -/

/-- Claim C1, counterexample: with the standard starting placement and
black to move, the premove query for the white king on e1 (recorded rook
files {0, 7}) also returns a1, a destination outside the claimed
seven-square set {d1, d2, e2, f1, f2, c1, g1} — the final rook-file
clause of the king predicate admits the recorded rook squares
themselves. -/
theorem C1_counterexample :
    "a1" ∈ premove startStateBlackToMove "e1" ∧
      "a1" ∉ (["d1", "d2", "e2", "f1", "f2", "c1", "g1"] : List String) := by
  decide

/-- Claim C1, amended: for the standard starting placement with black to
move, the premove query for the white king on e1 with recorded friendly
rook files {0, 7} returns exactly the nine destinations a1, c1, d1, d2,
e2, f1, f2, g1, h1 (scan order): the one-step king moves, the two
castling-shaped two-square jumps, and the two recorded rook-file squares
admitted by the final clause of the castling allowance. -/
theorem C1_theorem : premove startStateBlackToMove "e1" =
    ["a1", "c1", "d1", "d2", "e2", "f1", "f2", "g1", "h1"] := by
  decide

/-! ## Claim C2 -/

/-- Claim C2, counterexample: an arrow to a crowded destination being
actively drawn (shorten, current both true) is pulled back by 10/64 of a
board unit, not the claimed 20/64 — renderArrow passes
shorten AND NOT current to arrowMargin, so the in-progress arrow never
receives the larger margin. -/
theorem C2_counterexample :
    renderArrowMargin true true = 10 / 64 ∧ ((10 : ℚ) / 64 ≠ 20 / 64) := by
  constructor
  · rfl
  · norm_num

/-- Claim C2, amended: the endpoint pull-back margin of an arrow is 20/64
of a board unit exactly when the destination is crowded and the shape is
committed (not the in-progress one), and 10/64 in the three other cases;
the crowded committed case receives the largest pull-back. -/
theorem C2_theorem : ∀ shorten current : Bool,
    renderArrowMargin shorten current = (if shorten && !current then (20 : ℚ) else 10) / 64 ∧
      renderArrowMargin shorten current ≤ renderArrowMargin true false := by
  intro shorten current
  cases shorten <;> cases current <;>
    refine ⟨by norm_num [renderArrowMargin, arrowMargin], ?_⟩ <;>
    norm_num [renderArrowMargin, arrowMargin]

/-! ## Claim C3 -/

/-- Claim C3, counterexample: the pawn premove predicate accepts the
straight two-step advance a1 to a3 for a white pawn standing on rank 1
(rank index 0), which is not the white home rank 2 (rank index 1) —
pawnDirAdvance allows the double step from the first two ranks. -/
theorem C3_counterexample :
    pawn pawnA1A3Ctx = true ∧ pawnA1A3Ctx.orig.pos.2 ≠ 1 := by
  decide

/-- Claim C3, amended: for every mobility context, the pawn premove
predicate accepts exactly: a diagonal capture-shaped single step in the
color's forward direction, a straight one-step advance, or a straight
two-step advance when the pawn stands on one of its color's first two
ranks (rank index at most 1 for white, at least 6 for black — the
source's horde allowance), rather than on the home rank alone. -/
theorem C3_theorem (ctx : MobilityCtx) :
    pawn ctx = true ↔
      (((ctx.dest.pos.1 = ctx.orig.pos.1 + 1 ∨ ctx.dest.pos.1 = ctx.orig.pos.1 - 1) ∧
          ctx.dest.pos.2 = ctx.orig.pos.2 + (if ctx.color = Color.white then 1 else -1)) ∨
        (ctx.dest.pos.1 = ctx.orig.pos.1 ∧
          ctx.dest.pos.2 = ctx.orig.pos.2 + (if ctx.color = Color.white then 1 else -1)) ∨
        (ctx.dest.pos.1 = ctx.orig.pos.1 ∧
          ctx.dest.pos.2 = ctx.orig.pos.2 + 2 * (if ctx.color = Color.white then 1 else -1) ∧
          (if ctx.color = Color.white then ctx.orig.pos.2 ≤ 1 else 6 ≤ ctx.orig.pos.2))) := by
  cases hc : ctx.color <;>
    simp only [pawn, pawnDirAdvance, diff, hc, reduceCtorEq, if_true, if_false,
      Bool.and_eq_true, decide_eq_true_eq, reduceIte] <;>
    split_ifs <;>
    simp only [decide_eq_true_eq] <;>
    omega

/-! ## Claim C8 -/

/-- Claim C8: the premove query is a total pure function of the state (it
never throws and never writes the state in this embedding), and for an
empty origin square, or an origin holding a piece of the side currently
to move, it returns the empty list — the designed no-premove-available
signal. -/
theorem C8_theorem (state : PState) (key : String)
    (h : state.pieces.lookup key = none ∨
      ∃ p, state.pieces.lookup key = some p ∧ p.color = state.turnColor) :
    premove state key = [] := by
  unfold premove
  rcases h with h | ⟨p, hp, hc⟩
  · rw [h]
  · rw [hp]
    simp [hc]

/-- Claim C8, witness: the empty board returns no premove destinations
for e1. -/
theorem C8_witness : premove emptyPState "e1" = [] :=
  C8_theorem emptyPState "e1" (Or.inl rfl)

/-! ## Claim C9 -/

/-- Claim C9: derived square lists never contain off-board coordinates —
for all integer inputs every key produced by squaresBetween, and for
every input square every key produced by adjacentSquares, is one of the
64 valid board keys, because pos2key yields no key outside [0,7] x [0,7]
and undefined entries are filtered out rather than propagated. -/
theorem C9_theorem :
    (∀ (x1 y1 x2 y2 : Int) (k : String), k ∈ squaresBetween x1 y1 x2 y2 → k ∈ allKeys) ∧
      (∀ (square k : String), k ∈ adjacentSquares square → k ∈ allKeys) := by
  constructor
  · intro x1 y1 x2 y2 k hk
    simp only [squaresBetween] at hk
    split at hk
    · simp at hk
    · exact mem_filterMap_pos2key hk
  · intro square k hk
    simp only [adjacentSquares] at hk
    exact mem_filterMap_pos2key hk

/-- Claim C9, witness: the interior diagonal squares of a1 to d4 and the
horizontal neighbours of a5 are valid board keys. -/
theorem C9_witness : ("b2" ∈ allKeys) ∧ ("b5" ∈ allKeys) :=
  ⟨C9_theorem.1 0 0 3 3 "b2" (by decide), C9_theorem.2 "a5" "b5" (by decide)⟩

/-! ## Claim C10 -/

/-- A successful JS Map.get corresponds to an entry of the map. -/
lemma mem_of_lookup_eq_some {β : Type} {l : List (String × β)} {k : String} {v : β}
    (h : l.lookup k = some v) : (k, v) ∈ l := by
  induction l with
  | nil => simp at h
  | cons kv t ih =>
    obtain ⟨a, b⟩ := kv
    by_cases hk : k = a
    · subst hk
      simp [List.lookup] at h
      simp [h]
    · simp [List.lookup, beq_false_of_ne hk] at h
      exact List.mem_cons_of_mem _ (ih h)

/-- A JS Map holds at most one value per key: with duplicate-free keys,
two entries sharing a key carry the same value. -/
lemma eq_of_mem_of_nodup_keys {β : Type} {l : List (String × β)}
    (hnd : (l.map Prod.fst).Nodup) {k : String} {v w : β}
    (hv : (k, v) ∈ l) (hw : (k, w) ∈ l) : v = w := by
  induction l with
  | nil => simp at hv
  | cons kv t ih =>
    simp only [List.map_cons, List.nodup_cons] at hnd
    rcases List.mem_cons.mp hv with hv1 | hv1 <;> rcases List.mem_cons.mp hw with hw1 | hw1
    · cases hv1
      injection hw1 with h1 h2
      exact h2.symm
    · cases hv1
      exact absurd (List.mem_map_of_mem Prod.fst hw1) hnd.1
    · cases hw1
      exact absurd (List.mem_map_of_mem Prod.fst hv1) hnd.1
    · exact ih hnd.2 hv1 hw1

/-- Every scan entry pairs a key with its own decoded position. -/
lemma allPosAndKey_pos {pk : PosAndKey} (h : pk ∈ allPosAndKey) :
    pk.pos = key2pos pk.key := by
  simp only [allPosAndKey, List.mem_map] at h
  obtain ⟨k, _, rfl⟩ := h
  rfl

set_option maxRecDepth 40000 in
/-- On valid keys the decoded rank index 0 / 7 corresponds exactly to the
rank character 1 / 8. -/
lemma allKeys_rank_char : ∀ k ∈ allKeys,
    ((key2pos k).2 = 0 ↔ k.data.getD 1 'A' = '1') ∧
      ((key2pos k).2 = 7 ↔ k.data.getD 1 'A' = '8') := by decide

set_option maxRecDepth 100000 in
/-- Valid keys agreeing on decoded file and on rank character are equal. -/
lemma allKeys_file_rank_eq : ∀ k ∈ allKeys, ∀ m ∈ allKeys,
    (key2pos k).1 = (key2pos m).1 →
      k.data.getD 1 'A' = m.data.getD 1 'A' → k = m := by decide

/-- Claim C10: for every premove state whose piece map carries valid,
duplicate-free square keys, the premove query never returns the origin
square itself: no role accepts a zero-delta move, and the castling clause
cannot fire on the king's own square because the recorded rook home files
come from the same piece map, in which the origin square holds the
queried king, not a rook. -/
theorem C10_theorem (state : PState) (key : String)
    (hkeys : ∀ kp ∈ state.pieces, kp.1 ∈ allKeys)
    (hnodup : (state.pieces.map Prod.fst).Nodup) :
    key ∉ premove state key := by
  intro hmem
  unfold premove at hmem
  cases hl : state.pieces.lookup key with
  | none => rw [hl] at hmem; simp at hmem
  | some piece =>
    rw [hl] at hmem
    by_cases htc : piece.color = state.turnColor
    · simp [htc] at hmem
    · simp only [htc, if_false, List.mem_map, List.mem_filter] at hmem
      obtain ⟨pk, ⟨hpkmem, hP⟩, hpkkey⟩ := hmem
      rw [Bool.and_eq_true] at hP
      have hmob := hP.1
      have hpos := allPosAndKey_pos hpkmem
      have hpos1 : pk.pos = key2pos key := by rw [hpos, hpkkey]
      have hkey_mem : (key, piece) ∈ state.pieces := mem_of_lookup_eq_some hl
      have hkey_valid : key ∈ allKeys := hkeys _ hkey_mem
      cases hr : piece.role
      · rw [hr] at hmob
        simp [mobilityByRole, pawn, pawnDirAdvance, diff, hpos1] at hmob
        split_ifs at hmob <;> simp at hmob
      · rw [hr] at hmob
        simp [mobilityByRole, knight, knightDir, diff, hpos1] at hmob
      · rw [hr] at hmob
        simp [mobilityByRole, bishop, bishopDir, diff, hpos1] at hmob
      · rw [hr] at hmob
        simp [mobilityByRole, rook, rookDir, diff, hpos1] at hmob
      · rw [hr] at hmob
        simp [mobilityByRole, queen, bishop, bishopDir, rook, rookDir, diff, hpos1] at hmob
      · rw [hr] at hmob
        simp only [mobilityByRole, king, kingDirNonCastling, diff, hpos1, Bool.or_eq_true,
          Bool.and_eq_true, decide_eq_true_eq] at hmob
        rcases hmob with hmax | ⟨⟨_, hhome⟩, hdisj⟩
        · simp [Int.sub_self] at hmax
        · rcases hdisj with ⟨h4, hsub⟩ | hcont
          · rcases hsub with ⟨h2, _⟩ | ⟨h6, _⟩ <;> omega
          · have hx : (key2pos key).1 ∈ (List.filter
                (fun kp =>
                  decide
                    ((kp.1.data.getD 1 'A' = if piece.color = CG.Color.white then '1' else '8') ∧
                      kp.2.color = piece.color ∧ kp.2.role = CG.Role.rook))
                state.pieces).map (fun kp => (CG.key2pos kp.1).1) := by
              simpa using hcont
            simp only [List.mem_map, List.mem_filter, decide_eq_true_eq] at hx
            obtain ⟨⟨kpk, kpv⟩, ⟨hkpmem, hkpchar, hkpcolor, hkprole⟩, hkpfile⟩ := hx
            have hrank := allKeys_rank_char key hkey_valid
            have hkchar : key.data.getD 1 'A' = (if piece.color = Color.white then '1' else '8') := by
              by_cases hcolor : piece.color = Color.white
              · rw [hcolor] at hhome ⊢
                simp only [if_true, reduceIte] at hhome ⊢
                exact hrank.1.mp hhome
              · simp only [hcolor, if_false, reduceIte] at hhome ⊢
                exact hrank.2.mp hhome
            have hkpchar2 : kpk.data.getD 1 'A' = key.data.getD 1 'A' := by
              rw [hkpchar, hkchar]
            have hkeq : kpk = key :=
              allKeys_file_rank_eq kpk (hkeys _ hkpmem) key hkey_valid hkpfile hkpchar2
            subst hkeq
            have hpieceeq : kpv = piece := eq_of_mem_of_nodup_keys hnodup hkpmem hkey_mem
            rw [hpieceeq, hr] at hkprole
            exact absurd hkprole (by simp)

/-- Claim C10, witness: from the starting placement with black to move,
the white king's premove destinations do not include e1 itself. -/
theorem C10_witness : "e1" ∉ premove startStateBlackToMove "e1" :=
  C10_theorem startStateBlackToMove "e1" (by decide) (by decide)

/-! ## Claim C7 -/

/-- joinComma on a cons with nonempty tail inserts one separator. -/
lemma joinComma_cons_ne_nil (x : String) (l : List String) (h : l ≠ []) :
    joinComma (x :: l) = x ++ "," ++ joinComma l := by
  cases l with
  | nil => exact absurd rfl h
  | cons y ys => rfl

/-- Joined entry lists differing in exactly one entry (same prefix and
suffix) yield different strings. -/
lemma joinComma_mid_ne (P S : List String) {m1 m2 : String} (h : m1 ≠ m2) :
    joinComma (P ++ m1 :: S) ≠ joinComma (P ++ m2 :: S) := by
  induction P with
  | nil =>
    cases S with
    | nil => simpa [joinComma] using h
    | cons s S' =>
      simp only [List.nil_append,
        joinComma_cons_ne_nil _ _ (by simp : (s :: S') ≠ [])]
      intro heq
      apply h
      have hd := congrArg String.data heq
      rw [String.data_append, String.data_append, String.data_append,
        String.data_append, List.append_assoc, List.append_assoc] at hd
      exact String.ext (List.append_cancel_right hd)
  | cons p P' ih =>
    have h1 : (P' ++ m1 :: S) ≠ [] := by simp
    have h2 : (P' ++ m2 :: S) ≠ [] := by simp
    simp only [List.cons_append, joinComma_cons_ne_nil _ _ h1, joinComma_cons_ne_nil _ _ h2]
    intro heq
    apply ih
    have hd := congrArg String.data heq
    rw [String.data_append, String.data_append, String.data_append,
      String.data_append] at hd
    exact String.ext (List.append_cancel_left hd)

/-- Appending one entry grows the joined string by the entry plus one
separator (none when the list was empty). -/
lemma joinComma_length_append_single (L : List String) (x : String) :
    (joinComma (L ++ [x])).length =
      (joinComma L).length + (if L = [] then x.length else 1 + x.length) := by
  induction L with
  | nil => simp [joinComma]
  | cons a L' ih =>
    cases L' with
    | nil =>
      have e1 : joinComma ([a] ++ [x]) = a ++ "," ++ x := rfl
      have e2 : joinComma [a] = a := rfl
      rw [e1, e2]
      have e3 : (if ([a] : List String) = [] then x.length else 1 + x.length) = 1 + x.length := by
        simp
      rw [e3]
      simp only [String.length_append]
      have e4 : (",").length = 1 := rfl
      omega
    | cons b L'' =>
      rw [show (a :: b :: L'' ++ [x]) = a :: ((b :: L'') ++ [x]) from rfl,
        joinComma_cons_ne_nil _ _ (by simp), joinComma_cons_ne_nil _ _ (by simp : (b :: L'') ≠ [])]
      simp only [String.length_append, ih]
      simp
      omega

/-- A string of length zero is empty. -/
lemma string_eq_empty_of_length {x : String} (h : x.length = 0) : x = "" := by
  have hd : x.data.length = 0 := h
  have : x.data = [] := List.length_eq_zero.mp hd
  exact String.ext this

/-- Appending one nonempty entry changes the joined string. -/
lemma joinComma_append_single_ne (L : List String) (x : String) (hx : x ≠ "") :
    joinComma (L ++ [x]) ≠ joinComma L := by
  intro heq
  have hlen := congrArg String.length heq
  rw [joinComma_length_append_single] at hlen
  split_ifs at hlen with hL
  · exact hx (string_eq_empty_of_length (by omega))
  · omega
/-- shapeHash with a present, truthy brush decomposes around the brush
entry. -/
lemma shapeHash_brush_eq_mid (s : DrawShape) (sh cur pe : Bool) (bounds : Bounds)
    (ac : Nat) (b : String) (hb : b ≠ "") :
    shapeHash { s with brush := some b } sh cur bounds pe ac =
      joinComma
        (([jsNum bounds.width, jsNum bounds.height,
            (if cur then some "true" else none),
            (if pe then some "pendingErase" else none),
            jsNum ac, jsStr s.orig, s.dest.bind jsStr].filterMap id) ++
          b ::
            ([(if sh then some "-" else none),
              (s.piece.map pieceHash).bind jsStr,
              (s.modifiers.map modifiersHash).bind jsStr,
              s.customSvg.map (fun c => "custom-" ++ textHash c.html ++ "," ++ centerChar c.center),
              s.label.map (fun l => "label-" ++ textHash l.text),
              (if s.below then some "below" else none)].filterMap id)) := by
  show joinComma
      (List.filterMap id
        ([jsNum bounds.width, jsNum bounds.height,
          (if cur then some "true" else none),
          (if pe then some "pendingErase" else none),
          jsNum ac, jsStr s.orig, s.dest.bind jsStr] ++
          (jsStr b) ::
            [(if sh then some "-" else none),
              (s.piece.map pieceHash).bind jsStr,
              (s.modifiers.map modifiersHash).bind jsStr,
              s.customSvg.map (fun c => "custom-" ++ textHash c.html ++ "," ++ centerChar c.center),
              s.label.map (fun l => "label-" ++ textHash l.text),
              (if s.below then some "below" else none)])) = _
  rw [List.filterMap_append]
  have hjs : jsStr b = some b := by simp [jsStr, hb]
  rw [hjs]
  rfl
/-- shapeHash of a shape on the above layer: the below entry is dropped. -/
lemma shapeHash_below_false (s : DrawShape) (sh cur pe : Bool) (bounds : Bounds) (ac : Nat) :
    shapeHash { s with below := false } sh cur bounds pe ac =
      joinComma
        ([jsNum bounds.width, jsNum bounds.height,
          (if cur then some "true" else none),
          (if pe then some "pendingErase" else none),
          jsNum ac, jsStr s.orig, s.dest.bind jsStr, s.brush.bind jsStr,
          (if sh then some "-" else none),
          (s.piece.map pieceHash).bind jsStr,
          (s.modifiers.map modifiersHash).bind jsStr,
          s.customSvg.map (fun c => "custom-" ++ textHash c.html ++ "," ++ centerChar c.center),
          s.label.map (fun l => "label-" ++ textHash l.text)].filterMap id) := by
  show joinComma
      (List.filterMap id
        ([jsNum bounds.width, jsNum bounds.height,
          (if cur then some "true" else none),
          (if pe then some "pendingErase" else none),
          jsNum ac, jsStr s.orig, s.dest.bind jsStr, s.brush.bind jsStr,
          (if sh then some "-" else none),
          (s.piece.map pieceHash).bind jsStr,
          (s.modifiers.map modifiersHash).bind jsStr,
          s.customSvg.map (fun c => "custom-" ++ textHash c.html ++ "," ++ centerChar c.center),
          s.label.map (fun l => "label-" ++ textHash l.text)] ++ [none])) = _
  rw [List.filterMap_append,
    show List.filterMap id [(none : Option String)] = [] from rfl, List.append_nil]

/-- shapeHash of a below-layer shape ends with the below marker entry. -/
lemma shapeHash_below_true (s : DrawShape) (sh cur pe : Bool) (bounds : Bounds) (ac : Nat) :
    shapeHash { s with below := true } sh cur bounds pe ac =
      joinComma
        (([jsNum bounds.width, jsNum bounds.height,
          (if cur then some "true" else none),
          (if pe then some "pendingErase" else none),
          jsNum ac, jsStr s.orig, s.dest.bind jsStr, s.brush.bind jsStr,
          (if sh then some "-" else none),
          (s.piece.map pieceHash).bind jsStr,
          (s.modifiers.map modifiersHash).bind jsStr,
          s.customSvg.map (fun c => "custom-" ++ textHash c.html ++ "," ++ centerChar c.center),
          s.label.map (fun l => "label-" ++ textHash l.text)].filterMap id) ++ ["below"]) := by
  show joinComma
      (List.filterMap id
        ([jsNum bounds.width, jsNum bounds.height,
          (if cur then some "true" else none),
          (if pe then some "pendingErase" else none),
          jsNum ac, jsStr s.orig, s.dest.bind jsStr, s.brush.bind jsStr,
          (if sh then some "-" else none),
          (s.piece.map pieceHash).bind jsStr,
          (s.modifiers.map modifiersHash).bind jsStr,
          s.customSvg.map (fun c => "custom-" ++ textHash c.html ++ "," ++ centerChar c.center),
          s.label.map (fun l => "label-" ++ textHash l.text)] ++ [some "below"])) = _
  rw [List.filterMap_append]
  rfl

/-- shapeHash with a label decomposes around the label entry. -/
lemma shapeHash_label_eq_mid (s : DrawShape) (t : String) (fl : Option String)
    (sh cur pe : Bool) (bounds : Bounds) (ac : Nat) :
    shapeHash { s with label := some ⟨t, fl⟩ } sh cur bounds pe ac =
      joinComma
        (([jsNum bounds.width, jsNum bounds.height,
            (if cur then some "true" else none),
            (if pe then some "pendingErase" else none),
            jsNum ac, jsStr s.orig, s.dest.bind jsStr, s.brush.bind jsStr,
            (if sh then some "-" else none),
            (s.piece.map pieceHash).bind jsStr,
            (s.modifiers.map modifiersHash).bind jsStr,
            s.customSvg.map (fun c => "custom-" ++ textHash c.html ++ "," ++ centerChar c.center)].filterMap id) ++
          ("label-" ++ textHash t) ::
            ([(if s.below then some "below" else none)].filterMap id)) := by
  show joinComma
      (List.filterMap id
        ([jsNum bounds.width, jsNum bounds.height,
          (if cur then some "true" else none),
          (if pe then some "pendingErase" else none),
          jsNum ac, jsStr s.orig, s.dest.bind jsStr, s.brush.bind jsStr,
          (if sh then some "-" else none),
          (s.piece.map pieceHash).bind jsStr,
          (s.modifiers.map modifiersHash).bind jsStr,
          s.customSvg.map (fun c => "custom-" ++ textHash c.html ++ "," ++ centerChar c.center)] ++
          (some ("label-" ++ textHash t)) :: [(if s.below then some "below" else none)])) = _
  rw [List.filterMap_append]
  rfl

/-- Claim C7, amended: the content hash is a deterministic function of the
shape's fields (immediate in this embedding, where object identity does
not exist), and for fixed bounds and crowding inputs: changing the brush
id (between two present, nonempty ids) always changes the hash, flipping
the below-layer flag always changes the hash, and changing the label
text changes the hash whenever the rolling text hashes differ; an unset
optional field contributes nothing to the hash — so a modifiers object
with every field unset hashes exactly like an absent one, which is also
why a modifiers change, like a label change colliding in the rolling
hash, need not change the hash. -/
theorem C7_theorem :
    (∀ (s : DrawShape) (b1 b2 : String) (sh cur pe : Bool) (bounds : Bounds) (ac : Nat),
        b1 ≠ "" → b2 ≠ "" → b1 ≠ b2 →
        shapeHash { s with brush := some b1 } sh cur bounds pe ac ≠
          shapeHash { s with brush := some b2 } sh cur bounds pe ac) ∧
    (∀ (s : DrawShape) (sh cur pe : Bool) (bounds : Bounds) (ac : Nat),
        shapeHash { s with below := false } sh cur bounds pe ac ≠
          shapeHash { s with below := true } sh cur bounds pe ac) ∧
    (∀ (s : DrawShape) (t1 t2 : String) (fl : Option String) (sh cur pe : Bool)
        (bounds : Bounds) (ac : Nat),
        textHash t1 ≠ textHash t2 →
        shapeHash { s with label := some ⟨t1, fl⟩ } sh cur bounds pe ac ≠
          shapeHash { s with label := some ⟨t2, fl⟩ } sh cur bounds pe ac) ∧
    (∀ (s : DrawShape) (sh cur pe : Bool) (bounds : Bounds) (ac : Nat),
        shapeHash { s with modifiers := some ⟨none, none⟩ } sh cur bounds pe ac =
          shapeHash { s with modifiers := none } sh cur bounds pe ac) := by
  refine ⟨?_, ?_, ?_, ?_⟩
  · intro s b1 b2 sh cur pe bounds ac h1 h2 hne
    rw [shapeHash_brush_eq_mid s sh cur pe bounds ac b1 h1,
      shapeHash_brush_eq_mid s sh cur pe bounds ac b2 h2]
    exact joinComma_mid_ne _ _ hne
  · intro s sh cur pe bounds ac
    rw [shapeHash_below_false, shapeHash_below_true]
    exact (joinComma_append_single_ne _ "below" (by decide)).symm
  · intro s t1 t2 fl sh cur pe bounds ac ht
    rw [shapeHash_label_eq_mid, shapeHash_label_eq_mid]
    refine joinComma_mid_ne _ _ ?_
    intro heq
    apply ht
    have hd := congrArg String.data heq
    rw [String.data_append, String.data_append] at hd
    exact String.ext (List.append_cancel_left hd)
  · intro s sh cur pe bounds ac
    rfl
/-- Claim C7, counterexample: the label texts "Aa" and "BB" collide in the
base-31 rolling hash, so two shapes differing only in that
visually-relevant field share one content hash; likewise a shape whose
modifiers object has every field unset hashes identically to one with no
modifiers at all, so a modifiers change need not change the hash. -/
theorem C7_counterexample :
    (shapeHash (labelShape "Aa") false false cbounds false 0 =
        shapeHash (labelShape "BB") false false cbounds false 0 ∧
      "Aa" ≠ "BB") ∧
    (shapeHash emptyModShape false false cbounds false 0 =
        shapeHash plainShape false false cbounds false 0 ∧
      emptyModShape.modifiers ≠ plainShape.modifiers) := by
  decide

/-- Claim C7, witness: concrete instances of every amended conjunct at
fixed 800 x 800 bounds. -/
theorem C7_witness :
    (shapeHash { plainShape with brush := some "green" } false false cbounds false 0 ≠
        shapeHash { plainShape with brush := some "red" } false false cbounds false 0) ∧
      (shapeHash { plainShape with below := false } false false cbounds false 0 ≠
        shapeHash { plainShape with below := true } false false cbounds false 0) ∧
      (shapeHash { plainShape with label := some ⟨"a", none⟩ } false false cbounds false 0 ≠
        shapeHash { plainShape with label := some ⟨"b", none⟩ } false false cbounds false 0) ∧
      (shapeHash { plainShape with modifiers := some ⟨none, none⟩ } false false cbounds false 0 =
        shapeHash { plainShape with modifiers := none } false false cbounds false 0) :=
  ⟨C7_theorem.1 plainShape "green" "red" false false false cbounds 0 (by decide) (by decide)
      (by decide),
    C7_theorem.2.1 plainShape false false false cbounds 0,
    C7_theorem.2.2.1 plainShape "a" "b" none false false false cbounds 0 (by decide),
    C7_theorem.2.2.2 plainShape false false false cbounds 0⟩

/-! ## Claim C4 -/

/-- The hashed shape list reads everything except the prevSvgHash
sentinel. -/
lemma computeShapeCtxs_set_prev (s : RState) (h : String) :
    computeShapeCtxs { s with drawable := { s.drawable with prevSvgHash := h } } =
      computeShapeCtxs s := rfl

/-- The session hash reads everything except the prevSvgHash sentinel. -/
lemma fullHashOf_set_prev (s : RState) (h : String) :
    fullHashOf { s with drawable := { s.drawable with prevSvgHash := h } } =
      fullHashOf s := rfl

/-- renderSvg returns immediately — no state write, no tree mutation, no
appendChild or removeChild — when the session hash matches the recorded
one. -/
lemma renderSvg_shortcircuit (s : RState) (els : SvgEls)
    (h : fullHashOf s = s.drawable.prevSvgHash) : renderSvg s els = (s, els, 0, 0) := by
  simp only [renderSvg, if_pos h]

/-- The state renderSvg returns: unchanged on the short-circuit, else only
the prevSvgHash sentinel is overwritten with the new session hash. -/
lemma renderSvg_fst (s : RState) (els : SvgEls) :
    (renderSvg s els).1 =
      if fullHashOf s = s.drawable.prevSvgHash then s
      else { s with drawable := { s.drawable with prevSvgHash := fullHashOf s } } := by
  simp only [renderSvg]
  split <;> rfl

/-- Claim C4: the render pass is idempotent — after any renderSvg call, a
second call on the resulting state and visual tree (logically unchanged
shape list, current shape and bounds) short-circuits on the recorded
session hash: it returns the same state and tree and performs zero
appendChild and zero removeChild calls. -/
theorem C4_theorem (state : RState) (els : SvgEls) :
    renderSvg (renderSvg state els).1 (renderSvg state els).2.1 =
      ((renderSvg state els).1, (renderSvg state els).2.1, 0, 0) := by
  by_cases h : fullHashOf state = state.drawable.prevSvgHash
  · have h2 : fullHashOf (renderSvg state els).1 =
        (renderSvg state els).1.drawable.prevSvgHash := by
      rw [renderSvg_shortcircuit state els h]
      exact h
    exact renderSvg_shortcircuit _ _ h2
  · have h1 : (renderSvg state els).1 =
        { state with drawable := { state.drawable with prevSvgHash := fullHashOf state } } := by
      rw [renderSvg_fst, if_neg h]
    have h2 : fullHashOf (renderSvg state els).1 =
        (renderSvg state els).1.drawable.prevSvgHash := by
      rw [h1]
      exact fullHashOf_set_prev state (fullHashOf state)
    exact renderSvg_shortcircuit _ _ h2

/-! ## Claim C5 -/

/-- Lookup hits a matching head entry. -/
lemma lookup_cons_eq {α : Type} (k : String) (v : α) (t : List (String × α)) :
    List.lookup k ((k, v) :: t) = some v := by
  simp [List.lookup]

/-- Lookup skips a non-matching head entry. -/
lemma lookup_cons_ne {α : Type} {k a : String} (v : α) (t : List (String × α))
    (h : k ≠ a) : List.lookup k ((a, v) :: t) = List.lookup k t := by
  simp [List.lookup, beq_false_of_ne h]

/-- Overwriting every entry of a key: lookup of that key returns the new
value exactly when the key was present. -/
lemma lookup_map_replace {α : Type} (m : List (String × α)) (k : String) (v : α) :
    (m.map (fun kv => if kv.1 = k then (k, v) else kv)).lookup k =
      if (m.lookup k).isSome then some v else none := by
  induction m with
  | nil => rfl
  | cons kv t ih =>
    obtain ⟨a, b⟩ := kv
    simp only [List.map_cons]
    by_cases ha : a = k
    · subst ha
      rw [if_pos rfl, lookup_cons_eq, lookup_cons_eq]
      simp
    · rw [if_neg ha, lookup_cons_ne _ _ (fun hh => ha hh.symm),
        lookup_cons_ne _ _ (fun hh => ha hh.symm), ih]

/-- Overwriting every entry of a key leaves other lookups unchanged. -/
lemma lookup_map_replace_other {α : Type} (m : List (String × α)) (k : String) (v : α)
    (k' : String) (h : k' ≠ k) :
    (m.map (fun kv => if kv.1 = k then (k, v) else kv)).lookup k' = m.lookup k' := by
  induction m with
  | nil => rfl
  | cons kv t ih =>
    obtain ⟨a, b⟩ := kv
    simp only [List.map_cons]
    by_cases ha : a = k
    · subst ha
      rw [if_pos rfl, lookup_cons_ne _ _ h, lookup_cons_ne _ _ h, ih]
    · by_cases hk : k' = a
      · subst hk
        rw [if_neg ha, lookup_cons_eq, lookup_cons_eq]
      · rw [if_neg ha, lookup_cons_ne _ _ hk, lookup_cons_ne _ _ hk, ih]

/-- JS Map.set followed by get: the set key reads the new value, any other
key is unaffected. -/
lemma mapSet_lookup {α : Type} (m : List (String × α)) (k : String) (v : α) (k' : String) :
    (mapSet m k v).lookup k' = if k' = k then some v else m.lookup k' := by
  unfold mapSet
  by_cases hp : (m.lookup k).isSome
  · rw [if_pos hp]
    by_cases hk : k' = k
    · subst hk
      rw [if_pos rfl, lookup_map_replace, if_pos hp]
    · rw [if_neg hk, lookup_map_replace_other m k v k' hk]
  · rw [if_neg hp]
    rw [List.lookup_append]
    by_cases hk : k' = k
    · subst hk
      have hnone : m.lookup k' = none := by
        cases h : m.lookup k' with
        | none => rfl
        | some x => rw [h] at hp; simp at hp
      rw [hnone, if_pos rfl, lookup_cons_eq]
      rfl
    · rw [if_neg hk, lookup_cons_ne _ _ hk]
      cases m.lookup k' <;> rfl

/-- Folding Map.set(hash, false) over a shape list, generalized over the
initial map. -/
lemma buildMarks_lookup_aux (l : List ShapeCtx) (m : List (String × Bool)) (h : String) :
    ((l.foldl (fun m sc => mapSet m sc.hash false) m).lookup h) =
      if h ∈ l.map ShapeCtx.hash then some false else m.lookup h := by
  induction l generalizing m with
  | nil => simp
  | cons sc t ih =>
    simp only [List.foldl_cons, ih, List.map_cons, List.mem_cons]
    by_cases hh : h ∈ t.map ShapeCtx.hash
    · simp [hh]
    · by_cases he : h = sc.hash
      · simp [hh, he, mapSet_lookup]
      · simp [hh, he, mapSet_lookup]

/-- The initial hashesInDom map: every required hash maps to false,
nothing else is present. -/
lemma buildMarks_lookup (l : List ShapeCtx) (h : String) :
    (buildMarks l).lookup h = if h ∈ l.map ShapeCtx.hash then some false else none := by
  unfold buildMarks
  rw [buildMarks_lookup_aux]
  rfl
/-- The DOM walk keeps exactly the children whose recorded hash is a
required key, preserving them by identity and in order. -/
lemma domWalk_kept {α : Type} (getHash : α → String) (m : List (String × Bool))
    (els : List α) :
    (domWalk getHash m els).2.1 =
      els.filter (fun el => (m.lookup (getHash el)).isSome) := by
  induction els generalizing m with
  | nil => rfl
  | cons el rest ih =>
    by_cases hp : (m.lookup (getHash el)).isSome
    · simp only [domWalk, if_pos hp, ih, List.filter_cons, hp, if_true, reduceIte]
      congr 1
      apply List.filter_congr
      intro x _
      by_cases hg : getHash x = getHash el
      · rw [mapSet_lookup, if_pos hg, hg]
        simp [hp]
      · rw [mapSet_lookup, if_neg hg]
    · have hps : (m.lookup (getHash el)).isSome = false := by
        cases hiso : (m.lookup (getHash el)).isSome
        · rfl
        · exact absurd hiso hp
      simp only [domWalk, if_neg hp, ih, List.filter_cons, hps, Bool.false_eq_true,
        if_false, reduceIte]

/-- The DOM walk removes exactly the children whose recorded hash is not
a required key. -/
lemma domWalk_removed {α : Type} (getHash : α → String) (m : List (String × Bool))
    (els : List α) :
    (domWalk getHash m els).2.2 =
      (els.filter (fun el => !(m.lookup (getHash el)).isSome)).length := by
  induction els generalizing m with
  | nil => rfl
  | cons el rest ih =>
    by_cases hp : (m.lookup (getHash el)).isSome
    · have hnot : (!(m.lookup (getHash el)).isSome) = false := by rw [hp]; rfl
      simp only [domWalk, if_pos hp, ih, List.filter_cons, hnot, Bool.false_eq_true,
        if_false, reduceIte]
      congr 1
      apply List.filter_congr
      intro x _
      by_cases hg : getHash x = getHash el
      · rw [mapSet_lookup, if_pos hg, hg]
        simp [hp]
      · rw [mapSet_lookup, if_neg hg]
    · have hps : (m.lookup (getHash el)).isSome = false := by
        cases hiso : (m.lookup (getHash el)).isSome
        · rfl
        · exact absurd hiso hp
      have hnot : (!(m.lookup (getHash el)).isSome) = true := by rw [hps]; rfl
      simp only [domWalk, if_neg hp, ih, List.filter_cons, hnot, if_true, reduceIte]
      simp

/-- After the walk, a required hash is marked present exactly when some
walked child carried it. -/
lemma domWalk_marks {α : Type} (getHash : α → String) (m : List (String × Bool))
    (els : List α) (h : String) :
    ((domWalk getHash m els).1).lookup h =
      (m.lookup h).map (fun b => b || els.any (fun el => getHash el = h)) := by
  induction els generalizing m with
  | nil =>
    simp only [domWalk, List.any_nil]
    cases m.lookup h <;> simp
  | cons el rest ih =>
    by_cases hp : (m.lookup (getHash el)).isSome
    · simp only [domWalk, if_pos hp, ih, mapSet_lookup]
      by_cases hg : h = getHash el
      · subst hg
        rw [if_pos rfl]
        obtain ⟨b, hb⟩ := Option.isSome_iff_exists.mp hp
        rw [hb]
        simp
      · rw [if_neg hg]
        have hdec : (decide (getHash el = h)) = false := decide_eq_false (fun hh => hg hh.symm)
        cases m.lookup h <;> simp [List.any_cons, hdec]
    · simp only [domWalk, if_neg hp, ih]
      by_cases hg : h = getHash el
      · have hnone : m.lookup h = none := by
          rw [hg]
          cases hl : m.lookup (getHash el) with
          | none => rfl
          | some x => rw [hl] at hp; simp at hp
        rw [hnone]
        rfl
      · have hdec : (decide (getHash el = h)) = false := decide_eq_false (fun hh => hg hh.symm)
        cases m.lookup h <;> simp [List.any_cons, hdec]
/-- Walking an empty root changes nothing. -/
lemma domWalk_nil {α : Type} (getHash : α → String) (m : List (String × Bool)) :
    domWalk getHash m [] = (m, [], 0) := rfl

/-- Claim C5: minimal diff — for any N persisted shapes (pairwise distinct
hashes, above layer, one rendered node each) whose nodes are in the tree,
reconciling after removing one shape and adding one fresh shape performs
exactly one appendChild and one removeChild, and the untouched shapes
keep their very node objects: the new container is the old child list
with only the removed shape's node filtered out and the new node
appended. -/
theorem C5_theorem {α : Type} (getHash : α → String)
    (render : ShapeCtx → List (Rendered α))
    (A B : List ShapeCtx) (rm nw : ShapeCtx) (doms : List α) (nd : α)
    (hbelow : ∀ sc ∈ A ++ [rm] ++ B ++ [nw], sc.shape.below = false)
    (hdom : doms.map getHash = (A ++ [rm] ++ B).map ShapeCtx.hash)
    (hnodup : ((A ++ [rm] ++ B).map ShapeCtx.hash).Nodup)
    (hfresh : nw.hash ∉ (A ++ [rm] ++ B).map ShapeCtx.hash)
    (hrender : render nw = [{ el := nd, isCustom := false }]) :
    syncShapes getHash (A ++ B ++ [nw]) ⟨doms, [], [], []⟩ render =
      (⟨doms.filter (fun n => getHash n != rm.hash) ++ [nd], [], [], []⟩, 1, 1) := by
  have holdshape : (A ++ [rm] ++ B).map ShapeCtx.hash =
      A.map ShapeCtx.hash ++ rm.hash :: B.map ShapeCtx.hash := by simp
  rw [holdshape] at hdom hnodup hfresh
  have hnodup2 := (List.nodup_append.mp hnodup)
  have hrmA : rm.hash ∉ A.map ShapeCtx.hash := by
    intro hmm
    exact hnodup2.2.2 hmm (List.mem_cons_self _ _)
  have hrmB : rm.hash ∉ B.map ShapeCtx.hash := (List.nodup_cons.mp hnodup2.2.1).1
  have hrmnw : rm.hash ≠ nw.hash := by
    intro he
    exact hfresh (he ▸ (List.mem_append.mpr (Or.inr (List.mem_cons_self _ _))))
  have hLshape : (A ++ B ++ [nw]).map ShapeCtx.hash =
      A.map ShapeCtx.hash ++ B.map ShapeCtx.hash ++ [nw.hash] := by simp
  -- membership characterization for old node hashes
  have hchar : ∀ h : String, h ∈ A.map ShapeCtx.hash ++ rm.hash :: B.map ShapeCtx.hash →
      (h ∈ (A ++ B ++ [nw]).map ShapeCtx.hash ↔ h ≠ rm.hash) := by
    intro h hold
    rw [hLshape]
    constructor
    · intro hin he
      subst he
      simp only [List.mem_append, List.mem_singleton] at hin
      rcases hin with (hin | hin) | hin
      · exact hrmA hin
      · exact hrmB hin
      · exact hrmnw hin
    · intro hne
      simp only [List.mem_append, List.mem_cons] at hold
      simp only [List.mem_append, List.mem_singleton]
      rcases hold with hold | hold | hold
      · exact Or.inl (Or.inl hold)
      · exact absurd hold hne
      · exact Or.inl (Or.inr hold)
  -- the kept walk over the old nodes
  have hkept : (domWalk getHash (buildMarks (A ++ B ++ [nw])) doms).2.1 =
      doms.filter (fun n => getHash n != rm.hash) := by
    rw [domWalk_kept]
    apply List.filter_congr
    intro n hn
    have hnold : getHash n ∈ A.map ShapeCtx.hash ++ rm.hash :: B.map ShapeCtx.hash := by
      rw [← hdom]
      exact List.mem_map_of_mem getHash hn
    rw [buildMarks_lookup]
    by_cases hin : getHash n ∈ (A ++ B ++ [nw]).map ShapeCtx.hash
    · rw [if_pos hin]
      have := (hchar _ hnold).mp hin
      simp [this]
    · rw [if_neg hin]
      have : getHash n = rm.hash := by
        by_contra hne
        exact hin ((hchar _ hnold).mpr hne)
      simp [this]
  have hrem : (domWalk getHash (buildMarks (A ++ B ++ [nw])) doms).2.2 = 1 := by
    rw [domWalk_removed]
    have hcong : doms.filter
        (fun el => !((buildMarks (A ++ B ++ [nw])).lookup (getHash el)).isSome) =
        doms.filter (fun n => getHash n == rm.hash) := by
      apply List.filter_congr
      intro n hn
      have hnold : getHash n ∈ A.map ShapeCtx.hash ++ rm.hash :: B.map ShapeCtx.hash := by
        rw [← hdom]
        exact List.mem_map_of_mem getHash hn
      rw [buildMarks_lookup]
      by_cases hin : getHash n ∈ (A ++ B ++ [nw]).map ShapeCtx.hash
      · rw [if_pos hin]
        have := (hchar _ hnold).mp hin
        simp [this]
      · rw [if_neg hin]
        have : getHash n = rm.hash := by
          by_contra hne
          exact hin ((hchar _ hnold).mpr hne)
        simp [this]
    rw [hcong, ← List.countP_eq_length_filter]
    have : List.countP (fun n => getHash n == rm.hash) doms =
        List.countP (fun x => x == rm.hash) (doms.map getHash) := by
      rw [List.countP_map]
      rfl
    rw [this, ← List.count_eq_countP, hdom]
    exact List.count_eq_one_of_mem hnodup
      (List.mem_append.mpr (Or.inr (List.mem_cons_self _ _)))
  -- which shapes still need rendering
  have htoIns : (A ++ B ++ [nw]).filter
      (fun sc => !(((domWalk getHash (buildMarks (A ++ B ++ [nw])) doms).1.lookup
        sc.hash).getD false)) = [nw] := by
    rw [List.filter_append, List.filter_append]
    have hAB : ∀ sc ∈ A ++ B,
        (!(((domWalk getHash (buildMarks (A ++ B ++ [nw])) doms).1.lookup
          sc.hash).getD false)) = false := by
      intro sc hsc
      rw [domWalk_marks, buildMarks_lookup]
      have hin : sc.hash ∈ (A ++ B ++ [nw]).map ShapeCtx.hash := by
        rw [hLshape]
        rcases List.mem_append.mp hsc with hsc | hsc
        · exact List.mem_append.mpr (Or.inl (List.mem_append.mpr
            (Or.inl (List.mem_map_of_mem ShapeCtx.hash hsc))))
        · exact List.mem_append.mpr (Or.inl (List.mem_append.mpr
            (Or.inr (List.mem_map_of_mem ShapeCtx.hash hsc))))
      rw [if_pos hin]
      have hany : doms.any (fun el => getHash el = sc.hash) = true := by
        rw [List.any_eq_true]
        have hscold : sc.hash ∈ doms.map getHash := by
          rw [hdom]
          rcases List.mem_append.mp hsc with hsc | hsc
          · exact List.mem_append.mpr (Or.inl (List.mem_map_of_mem ShapeCtx.hash hsc))
          · exact List.mem_append.mpr (Or.inr (List.mem_cons.mpr
              (Or.inr (List.mem_map_of_mem ShapeCtx.hash hsc))))
        obtain ⟨n, hn, hg⟩ := List.mem_map.mp hscold
        exact ⟨n, hn, by simp [hg]⟩
      simp [hany]
    have h1 : A.filter (fun sc => !(((domWalk getHash
        (buildMarks (A ++ B ++ [nw])) doms).1.lookup sc.hash).getD false)) = [] := by
      apply List.filter_eq_nil_iff.mpr
      intro sc hsc
      rw [hAB sc (List.mem_append.mpr (Or.inl hsc))]
      simp
    have h2 : B.filter (fun sc => !(((domWalk getHash
        (buildMarks (A ++ B ++ [nw])) doms).1.lookup sc.hash).getD false)) = [] := by
      apply List.filter_eq_nil_iff.mpr
      intro sc hsc
      rw [hAB sc (List.mem_append.mpr (Or.inr hsc))]
      simp
    have h3 : ([nw] : List ShapeCtx).filter (fun sc => !(((domWalk getHash
        (buildMarks (A ++ B ++ [nw])) doms).1.lookup sc.hash).getD false)) = [nw] := by
      apply List.filter_eq_self.mpr
      intro sc hsc
      rw [List.mem_singleton.mp hsc]
      rw [domWalk_marks, buildMarks_lookup]
      have hin : nw.hash ∈ (A ++ B ++ [nw]).map ShapeCtx.hash := by
        rw [hLshape]
        exact List.mem_append.mpr (Or.inr (List.mem_singleton.mpr rfl))
      rw [if_pos hin]
      have hany : doms.any (fun el => getHash el = nw.hash) = false := by
        by_contra hc
        rw [Bool.not_eq_false, List.any_eq_true] at hc
        obtain ⟨n, hn, hg⟩ := hc
        apply hfresh
        rw [← hdom]
        exact List.mem_map.mpr ⟨n, hn, by simpa using hg⟩
      simp [hany]
    rw [h1, h2, h3]
    rfl
  -- the above-layer pass
  have habove : syncPlane getHash render (A ++ B ++ [nw]) doms [] =
      (doms.filter (fun n => getHash n != rm.hash) ++ [nd], [], 1, 1) := by
    simp only [syncPlane, domWalk_nil]
    rw [hkept, hrem, htoIns, List.flatMap_cons, hrender]
    rfl
  have hplaneA : (A ++ B ++ [nw]).filter (fun s => !s.shape.below) = A ++ B ++ [nw] := by
    apply List.filter_eq_self.mpr
    intro sc hsc
    have hm : sc ∈ A ++ [rm] ++ B ++ [nw] := by
      simp only [List.mem_append, List.mem_singleton] at hsc ⊢
      tauto
    rw [hbelow sc hm]
    rfl
  have hplaneB : (A ++ B ++ [nw]).filter (fun s => s.shape.below) = [] := by
    apply List.filter_eq_nil_iff.mpr
    intro sc hsc
    have hm : sc ∈ A ++ [rm] ++ B ++ [nw] := by
      simp only [List.mem_append, List.mem_singleton] at hsc ⊢
      tauto
    rw [hbelow sc hm]
    simp
  simp only [syncShapes, hplaneA, hplaneB, habove]
  rfl
/-- Claim C5, witness: two persisted nodes, one removed, one added; the
surviving node (1, h1) is preserved by identity. -/
theorem C5_witness :
    syncShapes Prod.snd
        ([({ shape := plainShape, current := false, pendingErase := false, hash := "h1" } :
            ShapeCtx)] ++ [] ++
          [{ shape := plainShape, current := false, pendingErase := false, hash := "h3" }])
        ⟨[(1, "h1"), (2, "h2")], [], [], []⟩
        (fun sc =>
          if sc.hash = "h3" then [{ el := ((3, "h3") : Nat × String), isCustom := false }]
          else []) =
      (⟨([((1 : Nat), "h1"), (2, "h2")] : List (Nat × String)).filter
          (fun n => n.2 != "h2") ++ [(3, "h3")], [], [], []⟩, 1, 1) :=
  C5_theorem Prod.snd
    (fun sc =>
      if sc.hash = "h3" then [{ el := ((3, "h3") : Nat × String), isCustom := false }]
      else [])
    [{ shape := plainShape, current := false, pendingErase := false, hash := "h1" }] []
    { shape := plainShape, current := false, pendingErase := false, hash := "h2" }
    { shape := plainShape, current := false, pendingErase := false, hash := "h3" }
    [(1, "h1"), (2, "h2")] (3, "h3")
    (by decide) (by decide) (by decide) (by decide) (by decide)

/-! ## Claim C6 -/

/-- Bounds and congruence for the truncating JS percent by 16. -/
lemma tmod16_facts (a : Int) :
    -16 < a.tmod 16 ∧ a.tmod 16 < 16 ∧ a.tmod 16 % 16 = a % 16 := by
  rcases a with m | m
  · have h : Int.tmod (Int.ofNat m) 16 = (Int.ofNat m) % 16 :=
      Int.tmod_eq_emod (by exact Int.ofNat_nonneg m) (by norm_num)
    rw [h]
    omega
  · have h : Int.tmod (Int.negSucc m) 16 = -(((m : Int) + 1) % 16) := by
      simp [Int.tmod]
    rw [h, Int.negSucc_eq]
    omega

/-- The double-mod idiom of svg.js equals the mathematical mod 16. -/
lemma jsMod_16 (n : Int) : jsMod n 16 = n % 16 := by
  unfold jsMod
  obtain ⟨h1, h2, h3⟩ := tmod16_facts n
  have hge : (0:ℤ) ≤ n.tmod 16 + 16 := by omega
  rw [Int.tmod_eq_emod hge (by norm_num)]
  omega

/-- Adding 4/9 (a 10 degree step in slot units) moves Math.round by 0
or 1. -/
lemma round_add_small (t : ℝ) :
    round (t + 4/9) = round t ∨ round (t + 4/9) = round t + 1 := by
  rw [round_eq, round_eq]
  have hle : ⌊t + 1/2⌋ ≤ ⌊t + 4/9 + 1/2⌋ := Int.floor_le_floor (by linarith)
  have hlt : ⌊t + 4/9 + 1/2⌋ < ⌊t + 1/2⌋ + 2 := by
    rw [Int.floor_lt]
    have := Int.lt_floor_add_one (t + 1/2)
    push_cast
    linarith
  omega

/-- Adding 68/9 (a 170 degree step in slot units) moves Math.round by 7
or 8. -/
lemma round_add_large (t : ℝ) :
    round (t + 68/9) = round t + 7 ∨ round (t + 68/9) = round t + 8 := by
  rw [round_eq, round_eq]
  have hle : ⌊t + 1/2⌋ + 7 ≤ ⌊t + 68/9 + 1/2⌋ := by
    have h7 : ⌊t + 1/2 + (7:ℤ)⌋ = ⌊t + 1/2⌋ + 7 := Int.floor_add_int _ _
    have hmono : ⌊t + 1/2 + (7:ℤ)⌋ ≤ ⌊t + 68/9 + 1/2⌋ := by
      apply Int.floor_le_floor
      push_cast
      linarith
    omega
  have hlt : ⌊t + 68/9 + 1/2⌋ < ⌊t + 1/2⌋ + 9 := by
    rw [Int.floor_lt]
    have := Int.lt_floor_add_one (t + 1/2)
    push_cast
    linarith
  omega

/-- The crowding test in terms of membership: some recorded slot has a
rotation by a nonzero offset of magnitude at most 3 that is also
recorded. -/
lemma anyTwo_eq_true_iff (l : List Int) :
    anyTwoCloserThan90Degrees l = true ↔
      ∃ s ∈ l, ∃ i ∈ [(-3 : Int), -2, -1, 1, 2, 3], rotateAngleSlot s i ∈ l := by
  simp [anyTwoCloserThan90Degrees, List.any_eq_true]

/-- A single recorded slot is never crowded: offset 0 is not tested. -/
lemma anyTwo_same (r : Int) : anyTwoCloserThan90Degrees [jsMod r 16] = false := by
  rw [Bool.eq_false_iff, Ne, anyTwo_eq_true_iff]
  rintro ⟨s, hs, i, hi, hmem⟩
  simp only [List.mem_singleton] at hs hmem
  subst hs
  rw [rotateAngleSlot] at hmem
  simp only [jsMod_16] at hmem
  simp only [List.mem_cons, List.mem_singleton, List.not_mem_nil, or_false] at hi
  rcases hi with rfl | rfl | rfl | rfl | rfl | rfl <;> omega

/-- Two slots one bucket apart are crowded. -/
lemma anyTwo_adjacent (r : Int) :
    anyTwoCloserThan90Degrees [jsMod r 16, jsMod (r + 1) 16] = true := by
  rw [anyTwo_eq_true_iff]
  refine ⟨jsMod r 16, by simp, 1, by simp, ?_⟩
  apply List.mem_cons.mpr
  right
  apply List.mem_singleton.mpr
  rw [rotateAngleSlot]
  simp only [jsMod_16]
  omega

/-- Two slots 7 or 8 buckets apart (circularly) are not crowded. -/
lemma anyTwo_far (r d : Int) (hd : d = 7 ∨ d = 8) :
    anyTwoCloserThan90Degrees [jsMod r 16, jsMod (r + d) 16] = false := by
  rw [Bool.eq_false_iff, Ne, anyTwo_eq_true_iff]
  rintro ⟨s, hs, i, hi, hmem⟩
  rw [rotateAngleSlot] at hmem
  simp only [jsMod_16, List.mem_cons, List.mem_singleton, List.not_mem_nil, or_false]
    at hs hi hmem
  rcases hd with rfl | rfl <;> rcases hs with rfl | rfl <;>
    rcases hi with rfl | rfl | rfl | rfl | rfl | rfl <;>
    rcases hmem with h | h <;> omega

/-- The slot set of two arrows: one slot when the discretizations agree,
two otherwise. -/
lemma slotsOfAngles_pair (a b : ℝ) :
    slotsOfAngles [a, b] =
      if angleToSlot b = angleToSlot a then [angleToSlot a]
      else [angleToSlot a, angleToSlot b] := by
  simp only [slotsOfAngles, List.foldl_cons, List.foldl_nil]
  by_cases h : angleToSlot b = angleToSlot a
  · have hc : ((setAdd [] (angleToSlot a)).contains (angleToSlot b)) = true := by
      simp [setAdd, h]
    simp [setAdd, hc, h]
  · have hc : ((setAdd [] (angleToSlot a)).contains (angleToSlot b)) = false := by
      simp [setAdd, h]
    simp [setAdd, hc, h]

/-- isShort on a one-destination index reduces to the crowding test. -/
lemma isShort_single (dk : String) (slots : List Int) :
    isShort (some dk) [(dk, slots)] = anyTwoCloserThan90Degrees slots := by
  simp [isShort, List.lookup]
/-- Claim C6, amended: for every approach angle, two arrows into the same
destination 10 degrees apart both report shortened exactly when their
angles discretize to distinct 16-bucket slots (those slots are then one
bucket apart and within the 3-bucket crowding radius) — when both fall in
the same bucket the single recorded slot is not crowded; and two arrows
170 degrees apart (7 or 8 buckets) never report shortened. -/
theorem C6_theorem (a : ℝ) (dk : String) :
    (angleToSlot a ≠ angleToSlot (a + Real.pi / 18) →
      isShort (some dk) [(dk, slotsOfAngles [a, a + Real.pi / 18])] = true) ∧
    isShort (some dk) [(dk, slotsOfAngles [a, a + 17 * Real.pi / 18])] = false := by
  have hpi : Real.pi ≠ 0 := Real.pi_ne_zero
  have ht1 : (a + Real.pi / 18) * 8 / Real.pi = a * 8 / Real.pi + 4/9 := by
    field_simp
    ring
  have ht2 : (a + 17 * Real.pi / 18) * 8 / Real.pi = a * 8 / Real.pi + 68/9 := by
    field_simp
    ring
  constructor
  · intro hne
    rw [isShort_single, slotsOfAngles_pair, if_neg (fun h => hne h.symm)]
    have hslot2 : angleToSlot (a + Real.pi / 18) =
        jsMod (round (a * 8 / Real.pi) + 1) 16 := by
      rw [angleToSlot, ht1]
      rcases round_add_small (a * 8 / Real.pi) with h | h
      · exfalso
        apply hne
        rw [angleToSlot, angleToSlot, ht1, h]
      · rw [h]
    rw [hslot2, show angleToSlot a = jsMod (round (a * 8 / Real.pi)) 16 from rfl]
    exact anyTwo_adjacent _
  · rw [isShort_single]
    have hs2 : angleToSlot (a + 17 * Real.pi / 18) =
        jsMod (round (a * 8 / Real.pi + 68/9)) 16 := by
      rw [angleToSlot, ht2]
    rcases round_add_large (a * 8 / Real.pi) with h | h
    · have hne2 : angleToSlot (a + 17 * Real.pi / 18) ≠ angleToSlot a := by
        rw [hs2, h, show angleToSlot a = jsMod (round (a * 8 / Real.pi)) 16 from rfl]
        simp only [jsMod_16]
        omega
      rw [slotsOfAngles_pair, if_neg hne2, hs2, h,
        show angleToSlot a = jsMod (round (a * 8 / Real.pi)) 16 from rfl]
      exact anyTwo_far _ 7 (Or.inl rfl)
    · have hne2 : angleToSlot (a + 17 * Real.pi / 18) ≠ angleToSlot a := by
        rw [hs2, h, show angleToSlot a = jsMod (round (a * 8 / Real.pi)) 16 from rfl]
        simp only [jsMod_16]
        omega
      rw [slotsOfAngles_pair, if_neg hne2, hs2, h,
        show angleToSlot a = jsMod (round (a * 8 / Real.pi)) 16 from rfl]
      exact anyTwo_far _ 8 (Or.inr rfl)

/-- Claim C6, counterexample: the arrows at angles pi and pi + pi/18 —
exactly 10 degrees apart — discretize to the same slot 8, so the
destination records a single slot and neither arrow reports shortened,
refuting the claim that 10-degree-apart arrows always do. -/
theorem C6_counterexample :
    isShort (some "e4") [("e4", slotsOfAngles [Real.pi, Real.pi + Real.pi / 18])] = false ∧
      (Real.pi + Real.pi / 18) - Real.pi = Real.pi / 18 := by
  constructor
  · have h1 : angleToSlot Real.pi = 8 := by
      rw [angleToSlot]
      have he : Real.pi * 8 / Real.pi = 8 := by
        field_simp
      rw [he, show round ((8:ℝ)) = 8 by norm_num]
      decide
    have h2 : angleToSlot (Real.pi + Real.pi / 18) = 8 := by
      rw [angleToSlot]
      have he : (Real.pi + Real.pi / 18) * 8 / Real.pi = 8 + 4/9 := by
        field_simp
        ring
      rw [he, show round ((8:ℝ) + 4/9) = 8 by rw [round_eq]; norm_num]
      decide
    rw [isShort_single, slotsOfAngles_pair, h1, h2, if_pos rfl,
      show (8 : Int) = jsMod 8 16 from rfl]
    exact anyTwo_same 8
  · ring

/-- Claim C6, witness: at pi/20 the two 10-degree-apart arrows fall in
slots 0 and 1 and both report shortened; the 170-degree pair does not. -/
theorem C6_witness :
    isShort (some "e4")
        [("e4", slotsOfAngles [Real.pi / 20, Real.pi / 20 + Real.pi / 18])] = true ∧
      isShort (some "e4")
        [("e4", slotsOfAngles [Real.pi / 20, Real.pi / 20 + 17 * Real.pi / 18])] = false := by
  have h1 : angleToSlot (Real.pi / 20) = 0 := by
    rw [angleToSlot]
    have he : Real.pi / 20 * 8 / Real.pi = 2/5 := by
      field_simp
      ring
    rw [he, show round ((2:ℝ)/5) = 0 by rw [round_eq]; norm_num]
    decide
  have h2 : angleToSlot (Real.pi / 20 + Real.pi / 18) = 1 := by
    rw [angleToSlot]
    have he : (Real.pi / 20 + Real.pi / 18) * 8 / Real.pi = 2/5 + 4/9 := by
      field_simp
      ring
    rw [he, show round ((2:ℝ)/5 + 4/9) = 1 by rw [round_eq]; norm_num]
    decide
  exact ⟨(C6_theorem (Real.pi / 20) "e4").1 (by rw [h1, h2]; decide),
    (C6_theorem (Real.pi / 20) "e4").2⟩

end CG
